import Mathlib

/-!
Verification of the hidraulik-cli provisioning core against its specification.

The Lean definitions below are shallow embeddings of the Python source:

* `src/hidraulik/validators.py` — namespace normalisation and validation;
* `src/gitlab_cicd_creator/template_manager.py` — variable scanning and
  classification (`extract_variables`);
* `src/gitlab_cicd_creator/k8s_generator.py` — template rendering
  (`process_templates`), with the external template engine modelled on its
  double-brace interpolation fragment (an unbound placeholder renders to the
  empty string, a malformed placeholder raises);
* `src/gitlab_cicd_creator/gitlab_client.py` — the reconciliation operations
  (`create_project_if_not_exists`, `create_or_update_file`,
  `create_or_update_variable`), modelled both as deterministic transitions on
  an explicit remote-state value and, for the error-handling claims, as
  control-flow functions over reified API outcomes;
* `src/hidraulik/services/k8s_config_service.py` and
  `src/gitlab_cicd_creator/cli.py` — manifest selection and manifest
  filtering/routing, with the interactive confirmation prompts reified as
  boolean answers.

Strings are processed through `String.toList` with explicit character-list
functions so that every definition evaluates by kernel reduction.
-/

namespace Hidraulik

/-! ## Character and string helpers -/

/-- Python's `\s` class restricted to the whitespace characters it matches in
the ASCII range, which is all that the scanned templates contain. -/
def pyIsSpace (c : Char) : Bool :=
  c = ' ' || c = '\t' || c = '\n' || c = '\r' || c = '\x0b' || c = '\x0c'

/-- The character class `[a-z0-9-]` of `validators.py`. -/
def isLowerAlnumDash (c : Char) : Bool :=
  decide (('a' ≤ c ∧ c ≤ 'z') ∨ ('0' ≤ c ∧ c ≤ '9') ∨ c = '-')

/-- The character class `[a-z0-9]`. -/
def isLowerAlnum (c : Char) : Bool :=
  decide (('a' ≤ c ∧ c ≤ 'z') ∨ ('0' ≤ c ∧ c ≤ '9'))

/-! ## `validators.py`: `normalize_to_k8s_namespace` and
`validate_k8s_namespace`

The normalisation pipeline of `normalize_to_k8s_namespace`
(`src/hidraulik/validators.py:12`) is embedded stage by stage, in the order
the source applies them. -/

/-- `re.sub(r'[^a-z0-9-]', '-', s)`: replace every character outside
`[a-z0-9-]` by a dash. -/
def replaceDisallowed (l : List Char) : List Char :=
  l.map (fun c => if isLowerAlnumDash c then c else '-')

/-- One left-to-right pass implementing `re.sub(r'-+', '-', s)`: a dash is
dropped whenever the previously emitted character was already a dash, so every
maximal run of dashes is replaced by a single dash.  The flag records whether
the last emitted character was a dash. -/
def collapseDashesGo : Bool → List Char → List Char
  | _, [] => []
  | prevDash, c :: rest =>
    if c = '-' then
      if prevDash then collapseDashesGo true rest
      else '-' :: collapseDashesGo true rest
    else c :: collapseDashesGo false rest

/-- `re.sub(r'-+', '-', s)` from `normalize_to_k8s_namespace`. -/
def collapseDashes (l : List Char) : List Char :=
  collapseDashesGo false l

/-- Python `str.rstrip('-')`. -/
def rstripDash (l : List Char) : List Char :=
  (l.reverse.dropWhile (fun c => c = '-')).reverse

/-- Python `str.strip('-')`. -/
def stripDash (l : List Char) : List Char :=
  rstripDash (l.dropWhile (fun c => c = '-'))

/-- The truncation step: `if len(s) > 63: s = s[:63].rstrip('-')`. -/
def truncate63 (l : List Char) : List Char :=
  if l.length > 63 then rstripDash (l.take 63) else l

/-- The final step: `if not normalized: normalized = 'default'`. -/
def normalizeFinish (l : List Char) : String :=
  if (truncate63 l).isEmpty then "default" else String.mk (truncate63 l)

/-- `normalize_to_k8s_namespace` (`src/hidraulik/validators.py:12`):
lowercase, replace every character outside `[a-z0-9-]` by `-`, collapse runs
of dashes, strip dashes at both ends, truncate to 63 characters (re-stripping
trailing dashes), and fall back to `"default"` when nothing is left.
`str.lower` is modelled by `Char.toLower`; for non-ASCII input the two can
differ, but every character outside `[a-z0-9-]` is replaced by `-` in the next
step either way. -/
def normalizeToK8sNamespace (name : String) : String :=
  normalizeFinish (stripDash (collapseDashes (replaceDisallowed
    (name.toList.map Char.toLower))))

/-- The `ValidationError(field, value, reason)` exception of
`src/hidraulik/exceptions.py`, as raised by the validators. -/
structure ValidationError where
  field : String
  value : String
  reason : String
deriving DecidableEq

/-- The regex `^[a-z0-9]([-a-z0-9]*[a-z0-9])?$` of `validate_k8s_namespace`:
a nonempty string over `[-a-z0-9]` whose first and last characters are in
`[a-z0-9]` (the one-character case degenerates to first = last). -/
def matchesK8sNamePattern (l : List Char) : Bool :=
  !l.isEmpty && l.all isLowerAlnumDash &&
    isLowerAlnum (l.headD 'a') && isLowerAlnum (l.getLastD 'a')

/-- `validate_k8s_namespace` (`src/hidraulik/validators.py:45`): empty names,
names longer than 63 characters and names failing the DNS-1123 pattern raise
`ValidationError`; every other name returns `True`. -/
def validateK8sNamespace (ns : String) : Except ValidationError Bool :=
  if ns = "" then
    .error ⟨"namespace", ns, "No puede estar vacio"⟩
  else if ns.toList.length > 63 then
    .error ⟨"namespace", ns, "Maximo 63 caracteres"⟩
  else if !matchesK8sNamePattern ns.toList then
    .error ⟨"namespace", ns, "Debe ser DNS-1123"⟩
  else
    .ok true

/-! ## Manifest selection (`k8s_config_service.py` and the `create` command)

The interactive `Confirm.ask` prompts are reified as boolean answers: each
field of `ManifestAnswers` is the answer the user would give to the
corresponding prompt.  An auto-activated entry never consults its answer,
mirroring the `if ...: append` / `elif Confirm.ask(...): append` structure. -/

structure ManifestAnswers where
  namespaceAns : Bool
  secretsAns : Bool
  configsAns : Bool
  deploymentAns : Bool
  ingressAns : Bool
  serviceAns : Bool
  pvcAns : Bool
deriving DecidableEq

/-- `configure_component_deployment`
(`src/hidraulik/services/k8s_config_service.py:62`): if the component is not
deployed to Kubernetes the selection is empty; otherwise the manifest list is
built in the fixed order namespace, secrets, configs, deployment, ingress,
service, pvc, with namespace auto-activated when `--namespace` was given,
secrets auto-activated when the component has secret vars and configs
auto-activated when it has config vars.  Sequential `append`s are
modelled as the concatenation of the per-manifest segments. -/
def configureComponentDeployment (deployToK8s : Bool)
    (hasConfigVars hasSecretVars namespaceProvided : Bool)
    (ans : ManifestAnswers) : Bool × List String :=
  if !deployToK8s then (false, [])
  else
    (true,
      (if namespaceProvided then ["namespace"]
        else if ans.namespaceAns then ["namespace"] else []) ++
      (if hasSecretVars then ["secrets"]
        else if ans.secretsAns then ["secrets"] else []) ++
      (if hasConfigVars then ["configs"]
        else if ans.configsAns then ["configs"] else []) ++
      (if ans.deploymentAns then ["deployment"] else []) ++
      (if ans.ingressAns then ["ingress"] else []) ++
      (if ans.serviceAns then ["service"] else []) ++
      (if ans.pvcAns then ["pvc"] else []))

/-- Python truthiness of `component in secret_vars and secret_vars[component]`
in the `create` command: the component has an entry and the entry is a
nonempty list. -/
def hasVarsEntry : Option (List String) → Bool
  | some l => !l.isEmpty
  | none => false

/-- The inline manifest selection of the `create` command
(`src/gitlab_cicd_creator/cli.py:432`), for one component that is deployed to
Kubernetes: same order as `configure_component_deployment`, namespace is
plainly asked (default `False`), secrets/configs are auto-activated from the
component's entries in `secret_vars` / `config_vars`. -/
def cliSelectManifests (secretVarsEntry configVarsEntry : Option (List String))
    (ans : ManifestAnswers) : List String :=
  (if ans.namespaceAns then ["namespace"] else []) ++
  (if hasVarsEntry secretVarsEntry then ["secrets"]
    else if ans.secretsAns then ["secrets"] else []) ++
  (if hasVarsEntry configVarsEntry then ["configs"]
    else if ans.configsAns then ["configs"] else []) ++
  (if ans.deploymentAns then ["deployment"] else []) ++
  (if ans.ingressAns then ["ingress"] else []) ++
  (if ans.serviceAns then ["service"] else []) ++
  (if ans.pvcAns then ["pvc"] else [])

/-! ## Manifest filtering and path routing (`cli.py:666`) -/

/-- Contiguous-substring test on character lists, modelling Python's
`pat in s`. -/
def isSubChars (pat : List Char) : List Char → Bool
  | [] => pat.isEmpty
  | c :: rest => pat.isPrefixOf (c :: rest) || isSubChars pat rest

/-- Python `pat in s` on strings. -/
def containsSub (s pat : String) : Bool := isSubChars pat.toList s.toList

/-- Splitting a character list on a separator, modelling Python
`str.split('/')` (always returns at least one, possibly empty, group). -/
def charSplit (sep : Char) : List Char → List (List Char)
  | [] => [[]]
  | c :: rest =>
    match charSplit sep rest with
    | [] => [[c]]
    | g :: gs => if c = sep then [] :: g :: gs else (c :: g) :: gs

/-- `file_path.split('/')[-1]` from the routing loop. -/
def baseName (path : String) : String :=
  String.mk ((charSplit '/' path.toList).getLastD [])

/-- The filename-pattern chain of `cli.py:672`: map a base name to the
manifest kind inferred from the fixed `01-namespace` … `07-pvc` substrings,
or `none` when no pattern matches. -/
def inferManifestType (base : String) : Option String :=
  if containsSub base "01-namespace" then some "namespace"
  else if containsSub base "02-secrets" then some "secrets"
  else if containsSub base "03-configs" then some "configs"
  else if containsSub base "04-deployment" then some "deployment"
  else if containsSub base "05-ingress" then some "ingress"
  else if containsSub base "06-service" then some "service"
  else if containsSub base "07-pvc" then some "pvc"
  else none

/-- One iteration of the routing loop of `cli.py:666`: a rendered file is kept
only if a manifest kind can be inferred from its base name and that kind is in
the component's selected manifests; kept files are rewritten to
`k8s/<component>/<base name>`. -/
def routeComponentFile (component : String) (selected : List String)
    (pc : String × String) : Option (String × String) :=
  match inferManifestType (baseName pc.1) with
  | some m =>
    if selected.contains m then
      some ("k8s/" ++ component ++ "/" ++ baseName pc.1, pc.2)
    else none
  | none => none

/-- The whole routing loop over the rendered files of one component. -/
def routeComponentFiles (component : String) (selected : List String)
    (files : List (String × String)) : List (String × String) :=
  files.filterMap (routeComponentFile component selected)

/-! ## Template rendering (`k8s_generator.py`)

`process_templates` delegates rendering to an external template engine.  The
engine is modelled on the fragment the generated templates use: double-brace
interpolation `{{ name }}`, where an unbound name renders to the empty string
(the engine's default undefined value) and a malformed placeholder (an
interpolation that is not a well-formed `{{ name }}`) raises, which the
source's `try/except` turns into keeping the original text. -/

/-- A parsed template: literal text interleaved with interpolations. -/
inductive Seg where
  | lit (s : String)
  | interp (name : String)
deriving DecidableEq

/-- First character of an identifier, `[a-zA-Z_]`. -/
def isIdentStart (c : Char) : Bool := c.isAlpha || c = '_'

/-- Subsequent characters of an identifier, `[a-zA-Z0-9_]`. -/
def isIdentChar (c : Char) : Bool := c.isAlphanum || c = '_'

/-- Longest identifier at the front of the input, with the rest. -/
def takeIdent : List Char → Option (String × List Char)
  | [] => none
  | c :: rest =>
    if isIdentStart c then
      some (String.mk (c :: rest.takeWhile isIdentChar), rest.dropWhile isIdentChar)
    else none

/-- Fuel-indexed parser for the interpolation fragment: literal text up to
`\x7b\x7b`, then optional spaces, an identifier, optional spaces and
`\x7d\x7d`; anything else after `\x7b\x7b` is a syntax error (`none`).  The
fuel only needs to exceed the input length. -/
def parseTmplGo : Nat → List Char → List Char → Option (List Seg)
  | 0, _, _ => none
  | _ + 1, acc, [] => some [Seg.lit (String.mk acc.reverse)]
  | fuel + 1, acc, '{' :: '{' :: rest =>
    match takeIdent (rest.dropWhile pyIsSpace) with
    | none => none
    | some (name, r2) =>
      match r2.dropWhile pyIsSpace with
      | '}' :: '}' :: r4 =>
        match parseTmplGo fuel [] r4 with
        | none => none
        | some segs => some (Seg.lit (String.mk acc.reverse) :: Seg.interp name :: segs)
      | _ => none
  | fuel + 1, acc, c :: rest => parseTmplGo fuel (c :: acc) rest

/-- Parse a template body (`jinja_env.from_string`). -/
def parseTmpl (content : String) : Option (List Seg) :=
  parseTmplGo (content.toList.length + 1) [] content.toList

/-- First-match lookup in a variable binding (the render context). -/
def lookupVar : List (String × String) → String → Option String
  | [], _ => none
  | kv :: rest, n => if kv.1 = n then some kv.2 else lookupVar rest n

/-- Render one segment: literals verbatim; an interpolation becomes the bound
value, or the empty string when the name is unbound. -/
def renderSeg (binding : List (String × String)) : Seg → String
  | .lit s => s
  | .interp n =>
    match lookupVar binding n with
    | some v => v
    | none => ""

/-- `template.render(**binding)`: render every segment and concatenate, or
fail on a template that does not parse. -/
def renderTemplate (binding : List (String × String)) (content : String) :
    Except Unit String :=
  match parseTmpl content with
  | none => .error ()
  | some segs => .ok (String.join (segs.map (renderSeg binding)))

/-- Python `k.startswith('CICD_')`, the reserved deploy-time marker test. -/
def startsWithCICD (s : String) : Bool := ("CICD_".toList).isPrefixOf s.toList

/-- The binding filter of `process_templates` (`k8s_generator.py:49`): the
context passed to the render step keeps only the pairs whose key is *not* a
deploy-time (`CICD_`-prefixed) name, whenever `preserve_cicd_vars` is set. -/
def templateBinding (vars : List (String × String)) (preserveCicdVars : Bool) :
    List (String × String) :=
  vars.filter (fun kv => !(preserveCicdVars && startsWithCICD kv.1))

/-- The per-template `try/except` body of `process_templates`: the rendered
text on success, the original template text on a rendering error. -/
def renderOr (binding : List (String × String)) (content : String) : String :=
  match renderTemplate binding content with
  | .ok r => r
  | .error _ => content

/-- `process_templates` (`src/gitlab_cicd_creator/k8s_generator.py:28`):
filter the binding, then process each template independently, substituting the
original text for any template whose rendering fails. -/
def processTemplates (templates : List (String × String))
    (vars : List (String × String)) (preserveCicdVars : Bool) :
    List (String × String) :=
  templates.map (fun pc =>
    (pc.1, renderOr (templateBinding vars preserveCicdVars) pc.2))

/-! ## Variable scanning and classification
(`template_manager.py:213`, `extract_variables`)

The two `re.findall` patterns are embedded as left-to-right scanners over the
character list: at each position a match is attempted; on success scanning
resumes after the matched text (the captured identifier), on failure at the
next position, exactly like `findall`'s non-overlapping semantics. -/

/-- Scanner for `\{\{\s*([a-zA-Z_][a-zA-Z0-9_]*)`: after `\x7b\x7b` and
optional whitespace, capture an identifier.  Fuel bounds the recursion; the
input length is always sufficient. -/
def scanInterpGo : Nat → List Char → List String
  | 0, _ => []
  | _ + 1, [] => []
  | fuel + 1, '{' :: '{' :: rest =>
    match takeIdent (rest.dropWhile pyIsSpace) with
    | some (name, r2) => name :: scanInterpGo fuel r2
    | none => scanInterpGo fuel ('{' :: rest)
  | fuel + 1, _ :: rest => scanInterpGo fuel rest

/-- All identifiers matched by the interpolation pattern in one template. -/
def scanInterp (content : String) : List String :=
  scanInterpGo content.toList.length content.toList

/-- The alternation `(?:if|elif|for|set)`: the keywords have pairwise distinct
first characters, so at most one of them can match at a given position and
first-prefix selection coincides with the regex's backtracking choice. -/
def takeBlockKeyword (cs : List Char) : Option (List Char) :=
  if ("if".toList).isPrefixOf cs then some (cs.drop 2)
  else if ("elif".toList).isPrefixOf cs then some (cs.drop 4)
  else if ("for".toList).isPrefixOf cs then some (cs.drop 3)
  else if ("set".toList).isPrefixOf cs then some (cs.drop 3)
  else none

/-- The part of `\{%\s+(?:if|elif|for|set)\s+([a-zA-Z_][a-zA-Z0-9_]*)` after
`\x7b%`: at least one whitespace, a block keyword, at least one whitespace,
then the captured identifier. -/
def takeBlockIdent (cs : List Char) : Option (String × List Char) :=
  match cs with
  | [] => none
  | c :: rest =>
    if pyIsSpace c then
      match takeBlockKeyword (rest.dropWhile pyIsSpace) with
      | some r2 =>
        match r2 with
        | [] => none
        | d :: r3 =>
          if pyIsSpace d then takeIdent (r3.dropWhile pyIsSpace)
          else none
      | none => none
    else none

/-- Scanner for the block-tag pattern. -/
def scanBlockGo : Nat → List Char → List String
  | 0, _ => []
  | _ + 1, [] => []
  | fuel + 1, '{' :: '%' :: rest =>
    match takeBlockIdent rest with
    | some (name, r2) => name :: scanBlockGo fuel r2
    | none => scanBlockGo fuel ('%' :: rest)
  | fuel + 1, _ :: rest => scanBlockGo fuel rest

/-- All identifiers matched by the block-tag pattern in one template. -/
def scanBlock (content : String) : List String :=
  scanBlockGo content.toList.length content.toList

/-- The fixed loop-internal name set `jinja_loop_vars` of
`extract_variables`. -/
def jinjaLoopVars : List String :=
  ["env", "component", "tag", "idx", "item", "key", "value", "index", "loop"]

/-- Both patterns applied to one template body, in the source's order. -/
def scanTemplate (content : String) : List String :=
  scanInterp content ++ scanBlock content

/-- The aggregate `all_vars` collection across all template bodies (as a list
with duplicates; the set semantics is recovered by `sortedDedup`). -/
def allScannedVars (templates : List (String × String)) : List String :=
  templates.foldl (fun acc pc => acc ++ scanTemplate pc.2) []

/-- Strict lexicographic comparison on character lists (Python string `<` by
code point). -/
def lexLt : List Char → List Char → Bool
  | [], [] => false
  | [], _ :: _ => true
  | _ :: _, [] => false
  | a :: as, b :: bs => if a < b then true else if b < a then false else lexLt as bs

/-- Python string `<`. -/
def strLt (a b : String) : Bool := lexLt a.toList b.toList

/-- Insertion into a strictly sorted list, skipping duplicates. -/
def insertSortedDedup (x : String) : List String → List String
  | [] => [x]
  | y :: ys =>
    if strLt x y then x :: y :: ys
    else if x = y then y :: ys
    else y :: insertSortedDedup x ys

/-- `sorted(all_vars)` for the *set* `all_vars`: the strictly sorted,
duplicate-free enumeration of the collected names. -/
def sortedDedup (l : List String) : List String := l.foldr insertSortedDedup []

/-- The classification loop of `extract_variables`: loop-internal names are
skipped, `CICD_`-prefixed names go to the deploy-time (CI/CD) list, the rest
to the template-time list, preserving the sorted iteration order. -/
def classifyVars (sortedVars : List String) : List String × List String :=
  (sortedVars.filter (fun v => !jinjaLoopVars.contains v && !startsWithCICD v),
   sortedVars.filter (fun v => !jinjaLoopVars.contains v && startsWithCICD v))

/-- `extract_variables` (`src/gitlab_cicd_creator/template_manager.py:213`):
scan all templates with both patterns, deduplicate and sort, then classify.
Returns `(template_vars, cicd_vars)`. -/
def extractVariables (templates : List (String × String)) :
    List String × List String :=
  classifyVars (sortedDedup (allScannedVars templates))

/-! ## Remote resource state and the reconciliation operations
(`gitlab_client.py`)

The remote GitLab instance is modelled as an explicit state value: the
existing group paths, and the projects with their repository files and CI/CD
variables.  The client operations are translated from
`src/gitlab_cicd_creator/gitlab_client.py` as deterministic transitions on
this state; API outcomes that only arise under races, permission problems or
transport failures are modelled separately as control-flow functions over
reified outcomes (`FetchResult`, `VarApiBehavior` below).  Commit history is
not part of the resource state: a file update rewrites the stored content in
place.

The remote system keeps a repository file unique per `(file_path, branch)`
and a CI/CD variable unique per `(key, environment_scope)` (a duplicate
creation fails with 409), so the first-match updates below touch the same
record the source's `files.get` / first-match loop does. -/

structure RepoFile where
  file_path : String
  branch : String
  content : String
deriving DecidableEq

/-- A CI/CD variable record; `prot` is the source's `protected` attribute
(a reserved word in Lean). -/
structure CicdVariable where
  key : String
  value : String
  prot : Bool
  masked : Bool
  environment_scope : String
deriving DecidableEq

/-- A remote project; `projVars` is the project's CI/CD variables
collection. -/
structure Project where
  path : String
  files : List RepoFile
  projVars : List CicdVariable
deriving DecidableEq

structure RemoteState where
  groups : List String
  projects : List Project
deriving DecidableEq

/-! ### Generic keyed get-or-create-or-update on lists

Both `create_or_update_file` and `create_or_update_variable` reconcile one
entry of a keyed collection: look the key up, update the found record in
place, append a fresh record when absent.  The shared shape is factored here;
`upsertK` instantiated with the file/variable projections below is exactly
the source's behaviour on the respective collection. -/

section KeyedUpsert

variable {α κ π : Type} [DecidableEq κ]

/-- Key match. -/
def hitK (keyOf : α → κ) (k : κ) (a : α) : Bool := decide (keyOf a = k)

/-- Update the first matching entry, leaving the rest unchanged (the
`for var in all_vars: ... break` pattern; the remote guarantees at most one
match). -/
def updateFirst (p : α → Bool) (f : α → α) : List α → List α
  | [] => []
  | x :: xs => if p x then f x :: xs else x :: updateFirst p f xs

variable (keyOf : α → κ) (payloadOf : α → π) (setPayload : π → α → α)
variable (mkEntry : κ → π → α)

/-- Get-or-create-or-update: update the first entry with the given key if one
exists, otherwise append a fresh entry. -/
def upsertK (k : κ) (v : π) (l : List α) : List α :=
  if l.any (hitK keyOf k) then updateFirst (hitK keyOf k) (setPayload v) l
  else l ++ [mkEntry k v]

/-- The payload stored at a key (first match). -/
def payloadAtK (k : κ) (l : List α) : Option π :=
  (l.find? (hitK keyOf k)).map payloadOf

/-- A sequence of upserts: the reconciliation of a list of desired entries. -/
def applyUpserts (es : List (κ × π)) (l : List α) : List α :=
  es.foldl (fun acc e => upsertK keyOf setPayload mkEntry e.1 e.2 acc) l

end KeyedUpsert

/-- File key: `(file_path, branch)`. -/
def fileKeyOf (f : RepoFile) : String × String := (f.file_path, f.branch)

/-- File payload: the content. -/
def filePayloadOf (f : RepoFile) : String := f.content

/-- `file.content = content; file.save(...)` on the stored record. -/
def fileSetPayload (c : String) (f : RepoFile) : RepoFile := { f with content := c }

/-- `project.files.create({...})`. -/
def mkRepoFile (k : String × String) (c : String) : RepoFile := ⟨k.1, k.2, c⟩

/-- Variable key: `(key, environment_scope)` — the scope-qualified key. -/
def varKeyOf (v : CicdVariable) : String × String := (v.key, v.environment_scope)

/-- Variable payload: `(value, protected, masked)`. -/
def varPayloadOf (v : CicdVariable) : String × Bool × Bool := (v.value, v.prot, v.masked)

/-- The three assignments before `existing_var.save()`. -/
def varSetPayload (p : String × Bool × Bool) (v : CicdVariable) : CicdVariable :=
  { v with value := p.1, prot := p.2.1, masked := p.2.2 }

/-- `project.variables.create({...})`. -/
def mkCicdVariable (k : String × String) (p : String × Bool × Bool) : CicdVariable :=
  ⟨k.1, p.1, p.2.1, p.2.2, k.2⟩

/-- The state effect of `create_or_update_file` on the project's file list. -/
def upsertFile (file_path branch content : String) (l : List RepoFile) : List RepoFile :=
  upsertK fileKeyOf fileSetPayload mkRepoFile (file_path, branch) content l

/-- The state effect of `create_or_update_variable` on the project's variable
list: find the record with the same key *and* scope, update it in place, else
create it. -/
def upsertVariable (key value : String) (prot masked : Bool) (environment_scope : String)
    (l : List CicdVariable) : List CicdVariable :=
  upsertK varKeyOf varSetPayload mkCicdVariable (key, environment_scope)
    (value, prot, masked) l

/-! ### The client operations as state transitions -/

/-- `_get_project_safe` / `get_project`: direct lookup by full path.  (The
name-search fallback of `get_project` only matters under transient lookup
failures, which the deterministic state does not exhibit.) -/
def projectExists (path : String) (s : RemoteState) : Bool :=
  s.projects.any (fun p => decide (p.path = path))

/-- Apply `ff` to the files and `fv` to the variables of the project at
`path`, leaving its identity and every other project untouched.  (Remote
project paths are unique, so at most one project matches.) -/
def modifyProjectData (path : String) (ff : List RepoFile → List RepoFile)
    (fv : List CicdVariable → List CicdVariable) (s : RemoteState) : RemoteState :=
  { s with projects := s.projects.map (fun p =>
      if p.path = path then { p with files := ff p.files, projVars := fv p.projVars }
      else p) }

/-- The file list of the project at `path` (empty when absent). -/
def projFiles (path : String) (s : RemoteState) : List RepoFile :=
  match s.projects.find? (fun p => decide (p.path = path)) with
  | some p => p.files
  | none => []

/-- The variable list of the project at `path` (empty when absent). -/
def projVariables (path : String) (s : RemoteState) : List CicdVariable :=
  match s.projects.find? (fun p => decide (p.path = path)) with
  | some p => p.projVars
  | none => []

/-- `create_or_update_file` (`gitlab_client.py:200`): resolve the project
(`none` models the propagated `GitlabGetError` when it is absent), fetch the
file at `(file_path, branch)`, update it in place when found, create it when
not.  `commit_message` only labels the commit; commit history is outside the
resource state. -/
def create_or_update_file (project_id file_path content commit_message branch : String)
    (s : RemoteState) : Option RemoteState :=
  if projectExists project_id s then
    some (modifyProjectData project_id (upsertFile file_path branch content) id s)
  else none

/-- `create_or_update_variable` (`gitlab_client.py:235`): resolve the
project, enumerate all variables, match on `(key, environment_scope)`, update
the match in place or create the variable. -/
def create_or_update_variable (project_id key value : String) (prot masked : Bool)
    (environment_scope : String) (s : RemoteState) : Option RemoteState :=
  if projectExists project_id s then
    some (modifyProjectData project_id id
      (upsertVariable key value prot masked environment_scope) s)
  else none

/-- `str.split('/')` on a project path. -/
def pathParts (path : String) : List String :=
  (charSplit '/' path.toList).map String.mk

/-- The successive values `current_path` takes in the group loop of
`create_project_if_not_exists`: for `[g, sub]` these are `g` and `g/sub`. -/
def joinedGroupPaths : List String → List String
  | [] => []
  | p :: rest => p :: (joinedGroupPaths rest).map (fun q => p ++ "/" ++ q)

/-- Get-or-create for one group path: look the full path up and create the
group only when absent.  The conflict/retry branches of the source handle
races with concurrent actors and cannot fire against the deterministic
state. -/
def ensureGroup (path : String) (s : RemoteState) : RemoteState :=
  if s.groups.contains path then s
  else { s with groups := s.groups ++ [path] }

/-- Appending the newly created project (`projects.create`). -/
def addProject (path : String) (s : RemoteState) : RemoteState :=
  { s with projects := s.projects ++ [⟨path, [], []⟩] }

/-- `create_project_if_not_exists` (`gitlab_client.py:72`): return the project
when the lookup succeeds; otherwise ensure each group of the namespace chain
exists, then create the project (directly in the personal namespace when the
path has no `/`). -/
def create_project_if_not_exists (project_path : String) (s : RemoteState) : RemoteState :=
  if projectExists project_path s then s
  else if 2 ≤ (pathParts project_path).length then
    addProject project_path
      ((joinedGroupPaths (pathParts project_path).dropLast).foldl
        (fun st g => ensureGroup g st) s)
  else addProject project_path s

/-! ### The desired state and its application -/

/-- A desired scope-qualified CI/CD variable (spec §3). -/
structure DesiredVariable where
  key : String
  value : String
  prot : Bool
  masked : Bool
  environment_scope : String
deriving DecidableEq

/-- The `DesiredResourceState` of spec §3: the project identity (group
hierarchy encoded in the path), the rendered file contents for one target
branch, and the scope-qualified variables; `dvars` is the spec's variable
mapping. -/
structure DesiredResourceState where
  project_path : String
  branch : String
  files : List (String × String)
  dvars : List DesiredVariable
deriving DecidableEq

/-- One application of a `DesiredResourceState`, in the ordering of spec §5:
groups and project first (`create_project_if_not_exists`), then every file
(`create_or_update_file`), then every variable (`create_or_update_variable`).
A `none` would signal a failed project lookup inside the file/variable loop,
which cannot occur after the project has been ensured. -/
def applyDesired (d : DesiredResourceState) (s : RemoteState) : Option RemoteState := do
  let s2 ← d.files.foldlM
    (fun st pc => create_or_update_file d.project_path pc.1 pc.2 "" d.branch st)
    (create_project_if_not_exists d.project_path s)
  d.dvars.foldlM
    (fun st v => create_or_update_variable d.project_path v.key v.value v.prot v.masked
      v.environment_scope st) s2

/-! ### Reified API outcomes for the error-handling claims -/

/-- Outcome of the `project.files.get` fetch in `create_or_update_file`:
`found` is a successful fetch; `notFound` is the `GitlabGetError` exception
class raised by a failed fetch — the remote's not-found signal and the only
exception the source catches; `fetchFailure` is any other exception, which
propagates. -/
inductive FetchResult where
  | found (existing : String)
  | notFound
  | fetchFailure
deriving DecidableEq

/-- A commit-producing API call (`file.save` / `project.files.create`). -/
inductive FileAction where
  | updateCommit (branch commit_message content : String)
  | createCommit (branch commit_message file_path content : String)
deriving DecidableEq

/-- The control flow of `create_or_update_file` (`gitlab_client.py:218`) over
the reified fetch outcome: the list is the sequence of commit-producing API
calls issued. -/
def create_or_update_file_calls (file_path content commit_message branch : String)
    (fetch : FetchResult) : Except Unit (List FileAction) :=
  match fetch with
  | .found _ => .ok [.updateCommit branch commit_message content]
  | .notFound => .ok [.createCommit branch commit_message file_path content]
  | .fetchFailure => .error ()

/-- Outcome of `project.variables.create`: success, or a `GitlabCreateError`
whose message does (`isConflict = true`) or does not contain `'409'` /
`'already exists'`. -/
inductive CreateOutcome where
  | success
  | createError (isConflict : Bool)
deriving DecidableEq

/-- Reified API behaviour for one `create_or_update_variable` call: the
result of the initial `variables.list` (`none` models a raised listing, which
the source catches and treats as "no match"), the outcome of
`variables.create` when attempted, and the result of the re-enumeration
inside the conflict handler (`none` models a raised re-listing). -/
structure VarApiBehavior where
  firstListResult : Option (List CicdVariable)
  createResult : CreateOutcome
  relistResult : Option (List CicdVariable)
deriving DecidableEq

/-- Result of one `create_or_update_variable` call. -/
inductive VarCallResult where
  | updatedExisting (saved : CicdVariable)
  | created (record : CicdVariable)
  | healedUpdate (saved : CicdVariable)
  | raisedCreateError (isConflict : Bool)
deriving DecidableEq

/-- The first-match loop `for var in all_vars: if var.key == key and
var.environment_scope == environment_scope: ...; break`. -/
def findVar (key environment_scope : String) (l : List CicdVariable) : Option CicdVariable :=
  l.find? (fun v => decide (v.key = key ∧ v.environment_scope = environment_scope))

/-- The scope-qualified lookup against the initial listing; a failed listing
leaves `existing_var = None`. -/
def firstMatch (key environment_scope : String) (api : VarApiBehavior) : Option CicdVariable :=
  match api.firstListResult with
  | some l => findVar key environment_scope l
  | none => none

/-- The control flow of `create_or_update_variable` (`gitlab_client.py:255`)
over reified API outcomes: update the initial match when there is one;
otherwise create; on a conflict-flavoured `GitlabCreateError` re-enumerate
and update the scope-qualified match, re-raising only when the re-listing
fails or holds no match; re-raise any other create error directly. -/
def create_or_update_variable_flow (key value : String) (prot masked : Bool)
    (environment_scope : String) (api : VarApiBehavior) : VarCallResult :=
  match firstMatch key environment_scope api with
  | some v => .updatedExisting (varSetPayload (value, prot, masked) v)
  | none =>
    match api.createResult with
    | .success => .created ⟨key, value, prot, masked, environment_scope⟩
    | .createError isConflict =>
      if isConflict then
        match api.relistResult with
        | some l =>
          match findVar key environment_scope l with
          | some v => .healedUpdate (varSetPayload (value, prot, masked) v)
          | none => .raisedCreateError true
        | none => .raisedCreateError true
      else .raisedCreateError false

/-! ### Lemmas about `updateFirst` and `upsertK` -/

/-- The keyed entries a desired file list reconciles, keyed by
`(file_path, branch)`. -/
def fileEntries (branch : String) (files : List (String × String)) :
    List ((String × String) × String) :=
  files.map (fun pc => ((pc.1, branch), pc.2))

/-- The keyed entries a desired variable list reconciles, keyed by
`(key, environment_scope)`. -/
def varEntries (dvars : List DesiredVariable) :
    List ((String × String) × (String × Bool × Bool)) :=
  dvars.map (fun v => ((v.key, v.environment_scope), (v.value, v.prot, v.masked)))

/-! ## Theorems -/

/-! ### Lemmas about the normalisation pipeline -/

theorem mem_collapseDashesGo {c : Char} :
    ∀ (l : List Char) (b : Bool), c ∈ collapseDashesGo b l → c ∈ l := by
  intro l
  induction l with
  | nil => intro b h; simp [collapseDashesGo] at h
  | cons x xs ih =>
    intro b h
    simp only [collapseDashesGo] at h
    by_cases hx : x = '-'
    · rw [if_pos hx] at h
      by_cases hb : b = true
      · rw [if_pos hb] at h
        exact List.mem_cons_of_mem _ (ih _ h)
      · rw [if_neg hb] at h
        rcases List.mem_cons.mp h with h1 | h1
        · rw [h1, ← hx]; exact List.mem_cons_self _ _
        · exact List.mem_cons_of_mem _ (ih _ h1)
    · rw [if_neg hx] at h
      rcases List.mem_cons.mp h with h1 | h1
      · rw [h1]; exact List.mem_cons_self _ _
      · exact List.mem_cons_of_mem _ (ih _ h1)

theorem mem_rstripDash {c : Char} {l : List Char} (h : c ∈ rstripDash l) : c ∈ l := by
  unfold rstripDash at h
  rw [List.mem_reverse] at h
  have h1 : l.reverse.dropWhile (fun c => c = '-') <:+ l.reverse :=
    List.dropWhile_suffix _
  have h2 := h1.sublist.mem h
  rwa [List.mem_reverse] at h2

theorem mem_stripDash {c : Char} {l : List Char} (h : c ∈ stripDash l) : c ∈ l :=
  (List.dropWhile_suffix (fun c => c = '-')).sublist.mem (mem_rstripDash h)

theorem prefix_rstripDash (l : List Char) : rstripDash l <+: l := by
  unfold rstripDash
  have h : l.reverse.dropWhile (fun c => c = '-') <:+ l.reverse :=
    List.dropWhile_suffix _
  have h2 := List.reverse_prefix.mpr h
  rwa [List.reverse_reverse] at h2

theorem dropWhile_head_not {α : Type} (p : α → Bool) :
    ∀ (l : List α) {h : α} {t : List α}, l.dropWhile p = h :: t → p h = false := by
  intro l
  induction l with
  | nil => intro h t he; simp at he
  | cons x xs ih =>
    intro h t he
    rw [List.dropWhile_cons] at he
    split at he
    · exact ih he
    · injection he with h1 _
      subst h1
      simpa using ‹¬ p x = true›

theorem getLastD_ne_dash_of_rstripDash {l m : List Char}
    (he : rstripDash l = m) (hne : m ≠ []) : ¬ m.getLastD 'a' = '-' := by
  have hrev : m.reverse = l.reverse.dropWhile (fun c => c = '-') := by
    rw [← he]; unfold rstripDash; rw [List.reverse_reverse]
  cases hm : m.reverse with
  | nil =>
    exact absurd (by simpa using congrArg List.reverse hm) hne
  | cons h' t' =>
    have hp : decide (h' = '-') = false :=
      dropWhile_head_not (fun c => decide (c = '-')) l.reverse (hrev.symm.trans hm)
    have h1 : m.getLastD 'a' = h' := by
      rw [List.getLastD_eq_getLast?, List.getLast?_eq_head?_reverse, hm]; rfl
    rw [h1]; simpa using hp

theorem charGetLastD_mem (d : Char) (l : List Char) (hl : l ≠ []) : l.getLastD d ∈ l := by
  cases hrev : l.reverse with
  | nil => exact absurd (by simpa using congrArg List.reverse hrev) hl
  | cons h' t' =>
    have h1 : l.getLastD d = h' := by
      rw [List.getLastD_eq_getLast?, List.getLast?_eq_head?_reverse, hrev]; rfl
    rw [h1, ← List.mem_reverse, hrev]
    exact List.mem_cons_self _ _

theorem isLowerAlnum_of_dash_free {c : Char} (h : isLowerAlnumDash c = true)
    (hne : ¬ c = '-') : isLowerAlnum c = true := by
  simp only [isLowerAlnumDash, decide_eq_true_eq] at h
  simp only [isLowerAlnum, decide_eq_true_eq]
  rcases h with h | h | h
  · exact Or.inl h
  · exact Or.inr h
  · exact absurd h hne

theorem stripDash_head_not_dash {l : List Char} {c : Char} {t : List Char}
    (h : stripDash l = c :: t) : ¬ c = '-' := by
  have hpre : c :: t <+: l.dropWhile (fun c => c = '-') := by
    rw [← h]; exact prefix_rstripDash _
  rcases hpre with ⟨r, hr⟩
  have hdw : l.dropWhile (fun c => decide (c = '-')) = c :: (t ++ r) := by
    rw [← hr]; rfl
  have hd := dropWhile_head_not (fun c : Char => decide (c = '-')) l hdw
  simpa using hd

theorem truncate63_length_le (l : List Char) : (truncate63 l).length ≤ 63 := by
  unfold truncate63
  split
  · calc (rstripDash (l.take 63)).length
        ≤ (l.take 63).length := (prefix_rstripDash _).length_le
      _ ≤ 63 := by rw [List.length_take]; omega
  · omega

theorem mem_truncate63 {c : Char} {l : List Char} (h : c ∈ truncate63 l) : c ∈ l := by
  unfold truncate63 at h
  split at h
  · exact (List.take_sublist _ _).mem (mem_rstripDash h)
  · exact h

theorem truncate63_head {l : List Char} {c : Char} {t : List Char}
    (h : truncate63 l = c :: t) : ∃ t2, l = c :: t2 := by
  unfold truncate63 at h
  split at h
  · have hpre : c :: t <+: l.take 63 := by rw [← h]; exact prefix_rstripDash _
    rcases hpre with ⟨r, hr⟩
    have h63 : l.take 63 = c :: (t ++ r) := by rw [← hr]; rfl
    have hsplit := List.take_append_drop 63 l
    rw [h63] at hsplit
    refine ⟨(t ++ r) ++ l.drop 63, ?_⟩
    rw [← List.cons_append]
    exact hsplit.symm
  · exact ⟨t, h⟩

theorem truncate63_stripDash_last {l0 : List Char} {c : Char} {t : List Char}
    (h : truncate63 (stripDash l0) = c :: t) : ¬ (c :: t).getLastD 'a' = '-' := by
  unfold truncate63 at h
  split at h
  · exact getLastD_ne_dash_of_rstripDash h (by simp)
  · exact getLastD_ne_dash_of_rstripDash
      (show rstripDash (l0.dropWhile (fun c => c = '-')) = c :: t from h) (by simp)

/-- The output of the strip-truncate-finish pipeline, applied to a list of
`[-a-z0-9]` characters, is either `"default"` or a nonempty string of at most
63 characters over `[-a-z0-9]` with `[a-z0-9]` at both ends. -/
theorem normalizeFinish_stripDash_cases (l0 : List Char)
    (hall : ∀ c ∈ stripDash l0, isLowerAlnumDash c = true) :
    normalizeFinish (stripDash l0) = "default" ∨
      ∃ m : List Char, normalizeFinish (stripDash l0) = String.mk m ∧ m ≠ [] ∧
        m.length ≤ 63 ∧ (∀ c ∈ m, isLowerAlnumDash c = true) ∧
        isLowerAlnum (m.headD 'a') = true ∧ isLowerAlnum (m.getLastD 'a') = true := by
  unfold normalizeFinish
  cases hcase : truncate63 (stripDash l0) with
  | nil => left; rfl
  | cons c t =>
    right
    have hmemAll : ∀ d ∈ c :: t, isLowerAlnumDash d = true := by
      intro d hd
      exact hall d (mem_truncate63 (hcase ▸ hd))
    refine ⟨c :: t, rfl, by simp, ?_, hmemAll, ?_, ?_⟩
    · have hle := truncate63_length_le (stripDash l0)
      rw [hcase] at hle
      exact hle
    · rcases truncate63_head hcase with ⟨t2, ht2⟩
      have hcd : ¬ c = '-' := stripDash_head_not_dash ht2
      exact isLowerAlnum_of_dash_free (hmemAll c (List.mem_cons_self _ _)) hcd
    · have hld := truncate63_stripDash_last hcase
      have hmem : (c :: t).getLastD 'a' ∈ c :: t := charGetLastD_mem 'a' _ (by simp)
      exact isLowerAlnum_of_dash_free (hmemAll _ hmem) hld

/-- Every output of `normalize_to_k8s_namespace` is either the fallback
`"default"` or a nonempty string of at most 63 characters over `[-a-z0-9]`
whose first and last characters are in `[a-z0-9]`. -/
theorem normalizeToK8sNamespace_cases (name : String) :
    normalizeToK8sNamespace name = "default" ∨
      ∃ m : List Char, normalizeToK8sNamespace name = String.mk m ∧ m ≠ [] ∧
        m.length ≤ 63 ∧ (∀ c ∈ m, isLowerAlnumDash c = true) ∧
        isLowerAlnum (m.headD 'a') = true ∧ isLowerAlnum (m.getLastD 'a') = true := by
  unfold normalizeToK8sNamespace
  apply normalizeFinish_stripDash_cases
  intro c hc
  have h1 : c ∈ replaceDisallowed (name.toList.map Char.toLower) :=
    mem_collapseDashesGo _ false (mem_stripDash hc)
  unfold replaceDisallowed at h1
  rcases List.mem_map.mp h1 with ⟨a, _, rfl⟩
  by_cases h : isLowerAlnumDash a = true
  · rw [if_pos h]; exact h
  · rw [if_neg h]; decide

/-- C10: `normalize_to_k8s_namespace` always produces a valid RFC 1123 name:
for every input string the result is nonempty, at most 63 characters long and
matches `^[a-z0-9]([-a-z0-9]*[a-z0-9])?$`, so `validate_k8s_namespace` accepts
every output of `normalize_to_k8s_namespace` without raising. -/
theorem validate_accepts_normalize (name : String) :
    validateK8sNamespace (normalizeToK8sNamespace name) = .ok true := by
  rcases normalizeToK8sNamespace_cases name with h | ⟨m, hm, hne, hlen, hall, hhead, hlast⟩
  · rw [h]; rfl
  · rw [hm]
    have hdata : (String.mk m).toList = m := rfl
    have h0 : ¬ String.mk m = "" := by
      intro he
      exact hne (by simpa [hdata] using congrArg String.toList he)
    have h1 : ¬ (String.mk m).toList.length > 63 := by rw [hdata]; omega
    have h2 : matchesK8sNamePattern m = true := by
      unfold matchesK8sNamePattern
      have hie : m.isEmpty = false := by
        cases m with
        | nil => exact absurd rfl hne
        | cons a l => rfl
      rw [hie, List.all_eq_true.mpr hall, hhead, hlast]
      rfl
    unfold validateK8sNamespace
    rw [if_neg h0, if_neg h1, hdata, h2]
    rfl

/-- C7: force-inclusion invariant of the manifest selection: for a component
that is deployed to Kubernetes, whenever the component has at least one
deploy-time (secret) variable the selection contains `secrets`, and whenever
it has at least one config variable the selection contains `configs`,
regardless of the user's explicit answers — in both the
`configure_component_deployment` service and the inline selection of the
`create` command. -/
theorem manifest_force_inclusion
    (hasConfigVars hasSecretVars namespaceProvided : Bool)
    (ans : ManifestAnswers) (secretVarsEntry configVarsEntry : Option (List String)) :
    (hasSecretVars = true → "secrets" ∈
      (configureComponentDeployment true hasConfigVars hasSecretVars
        namespaceProvided ans).2) ∧
    (hasConfigVars = true → "configs" ∈
      (configureComponentDeployment true hasConfigVars hasSecretVars
        namespaceProvided ans).2) ∧
    (hasVarsEntry secretVarsEntry = true →
      "secrets" ∈ cliSelectManifests secretVarsEntry configVarsEntry ans) ∧
    (hasVarsEntry configVarsEntry = true →
      "configs" ∈ cliSelectManifests secretVarsEntry configVarsEntry ans) := by
  refine ⟨?_, ?_, ?_, ?_⟩ <;> intro h <;>
    simp [configureComponentDeployment, cliSelectManifests, h]

/-- Witness for C7, including the spec's example scenario: a component whose
explicit choices are only `deployment` but which has one secret variable ends
up with both `deployment` and `secrets` selected. -/
theorem manifest_force_inclusion_witness :
    "secrets" ∈ (configureComponentDeployment true false true false
      ⟨false, false, false, true, false, false, false⟩).2 ∧
    "configs" ∈ (configureComponentDeployment true true false false
      ⟨false, false, false, true, false, false, false⟩).2 ∧
    "secrets" ∈ cliSelectManifests (some ["API_TOKEN"]) none
      ⟨false, false, false, true, false, false, false⟩ ∧
    (configureComponentDeployment true false true false
      ⟨false, false, false, true, false, false, false⟩).2 =
      ["secrets", "deployment"] :=
  ⟨(manifest_force_inclusion false true false
      ⟨false, false, false, true, false, false, false⟩ none none).1 rfl,
   (manifest_force_inclusion true false false
      ⟨false, false, false, true, false, false, false⟩ none none).2.1 rfl,
   (manifest_force_inclusion false false false
      ⟨false, false, false, true, false, false, false⟩ (some ["API_TOKEN"]) none).2.2.1 rfl,
   by decide⟩

/-- C8: fail-closed manifest filtering: a rendered file whose manifest kind
cannot be inferred from its base name (none of the patterns `01-namespace`
through `07-pvc` matches) is excluded from the output for every component and
every selection — it never contributes an output file. -/
theorem manifest_fail_closed (component p c : String) (selected : List String)
    (files : List (String × String))
    (h : inferManifestType (baseName p) = none) :
    routeComponentFile component selected (p, c) = none ∧
    routeComponentFiles component selected ((p, c) :: files) =
      routeComponentFiles component selected files := by
  have h1 : routeComponentFile component selected (p, c) = none := by
    unfold routeComponentFile
    rw [h]
  refine ⟨h1, ?_⟩
  unfold routeComponentFiles
  rw [List.filterMap_cons, h1]

/-- Witness for C8: a file named `99-unknown.yaml` is dropped even when every
manifest kind is selected, while a recognizable sibling is kept. -/
theorem manifest_fail_closed_witness :
    inferManifestType (baseName "k8s/99-unknown.yaml") = none ∧
    routeComponentFile "api"
      ["namespace", "secrets", "configs", "deployment", "ingress", "service", "pvc"]
      ("k8s/99-unknown.yaml", "kind: Foo") = none ∧
    routeComponentFiles "api"
      ["namespace", "secrets", "configs", "deployment", "ingress", "service", "pvc"]
      [("k8s/99-unknown.yaml", "kind: Foo"), ("k8s/01-namespace.yaml", "kind: Namespace")] =
      [("k8s/api/01-namespace.yaml", "kind: Namespace")] := by
  refine ⟨by decide, ?_, ?_⟩
  · exact (manifest_fail_closed "api" "k8s/99-unknown.yaml" "kind: Foo"
      ["namespace", "secrets", "configs", "deployment", "ingress", "service", "pvc"]
      [("k8s/01-namespace.yaml", "kind: Namespace")] (by decide)).1
  · rw [(manifest_fail_closed "api" "k8s/99-unknown.yaml" "kind: Foo"
      ["namespace", "secrets", "configs", "deployment", "ingress", "service", "pvc"]
      [("k8s/01-namespace.yaml", "kind: Namespace")] (by decide)).2]
    decide

/-! ### Lemmas about the filtered binding -/

theorem templateBinding_no_cicd {vars : List (String × String)}
    {k v : String} (h : (k, v) ∈ templateBinding vars true) :
    startsWithCICD k = false := by
  unfold templateBinding at h
  have h2 := (List.mem_filter.mp h).2
  simpa using h2

theorem lookupVar_templateBinding_cicd (vars : List (String × String))
    {n : String} (hn : startsWithCICD n = true) :
    lookupVar (templateBinding vars true) n = none := by
  induction vars with
  | nil => rfl
  | cons kv rest ih =>
    unfold templateBinding at ih ⊢
    rw [List.filter_cons]
    split
    · rename_i hkeep
      unfold lookupVar
      have hkv : startsWithCICD kv.1 = false := by simpa using hkeep
      have hne : ¬ kv.1 = n := by
        intro he
        rw [he, hn] at hkv
        simp at hkv
      rw [if_neg hne]
      exact ih
    · exact ih

/-- C3: render leak-freedom.  (i) The binding actually passed to the render
step never contains a `CICD_`-prefixed name, even when the input binding binds
such a name.  (ii) Consequently a deploy-time identifier inside double-brace
interpolation is unbound and renders to the empty string.  (iii) The spec's
example: rendering `pipeline/ci.yml.j2` containing `{{ image }}` and
`{{ CICD_TOKEN }}` with a binding that supplies both `image` and the secret
value of `CICD_TOKEN` yields `"img: app:v1\ntoken: "` — the secret value is
never emitted. -/
theorem render_leak_freedom :
    (∀ (vars : List (String × String)) (k v : String),
      (k, v) ∈ templateBinding vars true → startsWithCICD k = false) ∧
    (∀ (vars : List (String × String)) (n : String),
      startsWithCICD n = true →
      renderSeg (templateBinding vars true) (Seg.interp n) = "") ∧
    processTemplates
      [("pipeline/ci.yml.j2",
        "img: \x7b\x7b image \x7d\x7d\ntoken: \x7b\x7b CICD_TOKEN \x7d\x7d")]
      [("image", "app:v1"), ("CICD_TOKEN", "s3cr3t")] true =
      [("pipeline/ci.yml.j2", "img: app:v1\ntoken: ")] := by
  refine ⟨?_, ?_, ?_⟩
  · intro vars k v h
    exact templateBinding_no_cicd h
  · intro vars n hn
    have hl := lookupVar_templateBinding_cicd vars hn
    simp [renderSeg, hl]
  · decide

/-- Witness for C3 discharging the hypotheses at concrete inputs: the pair
`("image", "app:v1")` survives the filter and is not deploy-time, while the
deploy-time name `CICD_TOKEN` renders to the empty string even though the
input binding supplies its value. -/
theorem render_leak_freedom_witness :
    startsWithCICD "image" = false ∧
    renderSeg (templateBinding [("image", "app:v1"), ("CICD_TOKEN", "s3cr3t")] true)
      (Seg.interp "CICD_TOKEN") = "" :=
  ⟨render_leak_freedom.1 [("image", "app:v1"), ("CICD_TOKEN", "s3cr3t")]
      "image" "app:v1" (by decide),
   render_leak_freedom.2.1 [("image", "app:v1"), ("CICD_TOKEN", "s3cr3t")]
      "CICD_TOKEN" (by decide)⟩

/-- C9: render failure degrades gracefully per template: if rendering one
template fails, that template's path maps to the original unrendered text,
the whole collection is still processed (same number of output files), and
every successfully rendering template still maps to its rendered text. -/
theorem render_failure_graceful (templates vars : List (String × String))
    (preserve : Bool) (p c : String) (hmem : (p, c) ∈ templates)
    (herr : renderTemplate (templateBinding vars preserve) c = .error ()) :
    (p, c) ∈ processTemplates templates vars preserve ∧
    (processTemplates templates vars preserve).length = templates.length ∧
    (∀ q d r, (q, d) ∈ templates →
      renderTemplate (templateBinding vars preserve) d = .ok r →
      (q, r) ∈ processTemplates templates vars preserve) := by
  refine ⟨?_, ?_, ?_⟩
  · unfold processTemplates
    have : renderOr (templateBinding vars preserve) c = c := by
      unfold renderOr
      rw [herr]
    exact List.mem_map.mpr ⟨(p, c), hmem, by rw [this]⟩
  · unfold processTemplates
    exact List.length_map _ _
  · intro q d r hqd hok
    unfold processTemplates
    refine List.mem_map.mpr ⟨(q, d), hqd, ?_⟩
    unfold renderOr
    rw [hok]

/-- Witness for C9: the malformed template `a.j2` keeps its original text
while its sibling `b.j2` still renders. -/
theorem render_failure_graceful_witness :
    ("a.j2", "\x7b\x7b bad") ∈
      processTemplates [("a.j2", "\x7b\x7b bad"), ("b.j2", "x: \x7b\x7b image \x7d\x7d")]
        [("image", "v1")] true ∧
    (processTemplates [("a.j2", "\x7b\x7b bad"), ("b.j2", "x: \x7b\x7b image \x7d\x7d")]
        [("image", "v1")] true).length = 2 ∧
    ("b.j2", "x: v1") ∈
      processTemplates [("a.j2", "\x7b\x7b bad"), ("b.j2", "x: \x7b\x7b image \x7d\x7d")]
        [("image", "v1")] true := by
  have h := render_failure_graceful
    [("a.j2", "\x7b\x7b bad"), ("b.j2", "x: \x7b\x7b image \x7d\x7d")]
    [("image", "v1")] true "a.j2" "\x7b\x7b bad" (by decide) (by rfl)
  exact ⟨h.1, h.2.1, h.2.2 "b.j2" "x: \x7b\x7b image \x7d\x7d" "x: v1" (by decide) (by rfl)⟩

/-! ### Order lemmas for `strLt` and the sorted-dedup enumeration -/

theorem lexLt_irrefl : ∀ l : List Char, lexLt l l = false := by
  intro l
  induction l with
  | nil => rfl
  | cons c cs ih =>
    simp only [lexLt]
    rw [if_neg (lt_irrefl c), if_neg (lt_irrefl c)]
    exact ih

theorem lexLt_trans :
    ∀ (a b c : List Char), lexLt a b = true → lexLt b c = true → lexLt a c = true := by
  intro a
  induction a with
  | nil =>
    intro b c hab hbc
    cases b with
    | nil => exact hbc
    | cons y ys =>
      cases c with
      | nil => simp [lexLt] at hbc
      | cons z zs => rfl
  | cons x xs ih =>
    intro b c hab hbc
    cases b with
    | nil => simp [lexLt] at hab
    | cons y ys =>
      cases c with
      | nil => simp [lexLt] at hbc
      | cons z zs =>
        simp only [lexLt] at hab hbc ⊢
        rcases lt_trichotomy x y with hxy | hxy | hxy
        · rcases lt_trichotomy y z with hyz | hyz | hyz
          · rw [if_pos (lt_trans hxy hyz)]
          · subst hyz
            rw [if_pos hxy]
          · rw [if_neg (asymm hyz), if_pos hyz] at hbc
            exact absurd hbc (by simp)
        · subst hxy
          rcases lt_trichotomy x z with hxz | hxz | hxz
          · rw [if_pos hxz]
          · subst hxz
            simp only [if_neg (lt_irrefl x)] at hab hbc ⊢
            exact ih ys zs hab hbc
          · rw [if_neg (asymm hxz), if_pos hxz] at hbc
            exact absurd hbc (by simp)
        · rw [if_neg (asymm hxy), if_pos hxy] at hab
          exact absurd hab (by simp)

theorem lexLt_of_not_of_ne :
    ∀ (a b : List Char), ¬ lexLt a b = true → ¬ a = b → lexLt b a = true := by
  intro a
  induction a with
  | nil =>
    intro b h1 h2
    cases b with
    | nil => exact absurd rfl h2
    | cons c cs => exact absurd rfl h1
  | cons c cs ih =>
    intro b h1 h2
    cases b with
    | nil => rfl
    | cons d ds =>
      simp only [lexLt] at h1 ⊢
      by_cases hcd : c < d
      · rw [if_pos hcd] at h1; exact absurd rfl h1
      · rw [if_neg hcd] at h1
        by_cases hdc : d < c
        · rw [if_pos hdc]
        · rw [if_neg hdc] at h1
          have hce : c = d := le_antisymm (not_lt.mp hdc) (not_lt.mp hcd)
          rw [if_neg hdc, if_neg hcd]
          refine ih ds h1 ?_
          intro he
          exact h2 (by rw [hce, he])

theorem strLt_irrefl (a : String) : strLt a a = false := lexLt_irrefl _

theorem strLt_trans {a b c : String} (h1 : strLt a b = true) (h2 : strLt b c = true) :
    strLt a c = true := lexLt_trans _ _ _ h1 h2

theorem strLt_of_not_of_ne {a b : String} (h1 : ¬ strLt a b = true) (h2 : ¬ a = b) :
    strLt b a = true := by
  refine lexLt_of_not_of_ne _ _ h1 ?_
  intro he
  exact h2 (String.ext he)

theorem mem_insertSortedDedup {a x : String} :
    ∀ l : List String, (a ∈ insertSortedDedup x l ↔ a = x ∨ a ∈ l) := by
  intro l
  induction l with
  | nil => simp [insertSortedDedup]
  | cons y ys ih =>
    unfold insertSortedDedup
    by_cases h1 : strLt x y = true
    · rw [if_pos h1]; simp
    · rw [if_neg h1]
      by_cases h2 : x = y
      · rw [if_pos h2]
        subst h2
        simp only [List.mem_cons]
        constructor
        · intro h; exact Or.inr h
        · rintro (h | h)
          · exact Or.inl (by rw [h])
          · exact h
      · rw [if_neg h2]
        simp only [List.mem_cons, ih]
        constructor
        · rintro (h | h | h)
          · exact Or.inr (Or.inl h)
          · exact Or.inl h
          · exact Or.inr (Or.inr h)
        · rintro (h | h | h)
          · exact Or.inr (Or.inl h)
          · exact Or.inl h
          · exact Or.inr (Or.inr h)

theorem head_insertSortedDedup {x z : String} {zs : List String} :
    ∀ l : List String, insertSortedDedup x l = z :: zs →
      z = x ∨ ∃ t, l = z :: t := by
  intro l
  cases l with
  | nil =>
    intro h
    unfold insertSortedDedup at h
    injection h with h1 _
    exact Or.inl h1.symm
  | cons y ys =>
    intro h
    unfold insertSortedDedup at h
    by_cases h1 : strLt x y = true
    · rw [if_pos h1] at h
      injection h with h1 _
      exact Or.inl h1.symm
    · rw [if_neg h1] at h
      by_cases h2 : x = y
      · rw [if_pos h2] at h
        injection h with h1 _
        exact Or.inr ⟨ys, by rw [h1]⟩
      · rw [if_neg h2] at h
        injection h with h1 _
        exact Or.inr ⟨ys, by rw [h1]⟩

theorem chain'_insertSortedDedup (x : String) :
    ∀ l : List String, List.Chain' (fun a b => strLt a b = true) l →
      List.Chain' (fun a b => strLt a b = true) (insertSortedDedup x l) := by
  intro l
  induction l with
  | nil => intro _; simp [insertSortedDedup]
  | cons y ys ih =>
    intro hch
    unfold insertSortedDedup
    by_cases h1 : strLt x y = true
    · rw [if_pos h1]
      exact List.chain'_cons.mpr ⟨h1, hch⟩
    · rw [if_neg h1]
      by_cases h2 : x = y
      · rw [if_pos h2]; exact hch
      · rw [if_neg h2]
        have hyx : strLt y x = true := strLt_of_not_of_ne h1 h2
        have hins := ih hch.tail
        cases hys : insertSortedDedup x ys with
        | nil => simp
        | cons z zs =>
          rw [hys] at hins
          refine List.chain'_cons.mpr ⟨?_, hins⟩
          rcases head_insertSortedDedup ys hys with hz | ⟨t, ht⟩
          · rw [hz]; exact hyx
          · rw [ht] at hch
            exact (List.chain'_cons.mp hch).1

theorem mem_sortedDedup {a : String} :
    ∀ l : List String, (a ∈ sortedDedup l ↔ a ∈ l) := by
  intro l
  induction l with
  | nil => simp [sortedDedup]
  | cons y ys ih =>
    unfold sortedDedup at ih ⊢
    rw [List.foldr_cons, mem_insertSortedDedup, ih, List.mem_cons]

theorem chain'_sortedDedup (l : List String) :
    List.Chain' (fun a b => strLt a b = true) (sortedDedup l) := by
  induction l with
  | nil => simp [sortedDedup]
  | cons y ys ih =>
    unfold sortedDedup at ih ⊢
    rw [List.foldr_cons]
    exact chain'_insertSortedDedup y _ ih

theorem pairwise_sortedDedup (l : List String) :
    List.Pairwise (fun a b => strLt a b = true) (sortedDedup l) := by
  haveI : IsTrans String (fun a b => strLt a b = true) :=
    ⟨fun _ _ _ h1 h2 => strLt_trans h1 h2⟩
  exact List.chain'_iff_pairwise.mp (chain'_sortedDedup l)

/-- C6: classification completeness, disjointness and order: every identifier
recognised by either scanning pattern and not loop-internal lands in exactly
one of the two returned lists — the deploy-time list iff it carries the
`CICD_` prefix — loop-internal names land in neither, and both lists are
strictly lexicographically sorted (hence duplicate-free). -/
theorem extract_variables_classification
    (templates : List (String × String)) (v : String) :
    (v ∈ allScannedVars templates → v ∉ jinjaLoopVars →
      ((startsWithCICD v = true →
          v ∈ (extractVariables templates).2 ∧ v ∉ (extractVariables templates).1) ∧
        (startsWithCICD v = false →
          v ∈ (extractVariables templates).1 ∧ v ∉ (extractVariables templates).2))) ∧
    (v ∈ jinjaLoopVars →
      v ∉ (extractVariables templates).1 ∧ v ∉ (extractVariables templates).2) ∧
    List.Pairwise (fun a b => strLt a b = true) (extractVariables templates).1 ∧
    List.Pairwise (fun a b => strLt a b = true) (extractVariables templates).2 ∧
    (extractVariables templates).1.Nodup ∧ (extractVariables templates).2.Nodup := by
  have hpw := pairwise_sortedDedup (allScannedVars templates)
  have hmem : ∀ w : String,
      w ∈ sortedDedup (allScannedVars templates) ↔ w ∈ allScannedVars templates :=
    fun w => mem_sortedDedup _
  have hnodup :
      ∀ m : List String, List.Pairwise (fun a b => strLt a b = true) m → m.Nodup := by
    intro m hm
    refine hm.imp ?_
    intro a b h he
    rw [he, strLt_irrefl] at h
    simp at h
  refine ⟨?_, ?_, ?_, ?_, ?_, ?_⟩
  · intro hs hnl
    have hcv : jinjaLoopVars.contains v = false := by
      rcases hc : jinjaLoopVars.contains v with _ | _
      · rfl
      · exact absurd (List.elem_iff.mp hc) hnl
    have hvs : v ∈ sortedDedup (allScannedVars templates) := (hmem v).mpr hs
    constructor
    · intro hpre
      constructor
      · unfold extractVariables classifyVars
        simp only [List.mem_filter]
        refine ⟨hvs, ?_⟩
        rw [hcv, hpre]
        rfl
      · unfold extractVariables classifyVars
        simp only [List.mem_filter]
        rintro ⟨_, hcond⟩
        rw [hcv, hpre] at hcond
        simp at hcond
    · intro hpre
      constructor
      · unfold extractVariables classifyVars
        simp only [List.mem_filter]
        refine ⟨hvs, ?_⟩
        rw [hcv, hpre]
        rfl
      · unfold extractVariables classifyVars
        simp only [List.mem_filter]
        rintro ⟨_, hcond⟩
        rw [hcv, hpre] at hcond
        simp at hcond
  · intro hl
    have hcv : jinjaLoopVars.contains v = true := List.elem_iff.mpr hl
    constructor <;>
    · unfold extractVariables classifyVars
      simp only [List.mem_filter]
      rintro ⟨_, hcond⟩
      rw [hcv] at hcond
      simp at hcond
  · unfold extractVariables classifyVars
    exact List.Pairwise.sublist (List.filter_sublist _) hpw
  · unfold extractVariables classifyVars
    exact List.Pairwise.sublist (List.filter_sublist _) hpw
  · unfold extractVariables classifyVars
    exact hnodup _ (List.Pairwise.sublist (List.filter_sublist _) hpw)
  · unfold extractVariables classifyVars
    exact hnodup _ (List.Pairwise.sublist (List.filter_sublist _) hpw)

/-- Witness for C6 on a concrete template set: `image` (interpolation) is
template-time, `CICD_TOKEN` (block tag) is deploy-time, and the loop-internal
`item` appears in neither list. -/
theorem extract_variables_classification_witness :
    "image" ∈ (extractVariables [("k8s/x.yaml.j2",
      "\x7b\x7b image \x7d\x7d \x7b% if CICD_TOKEN %\x7d\x7b% for item in items %\x7d")]).1 ∧
    "image" ∉ (extractVariables [("k8s/x.yaml.j2",
      "\x7b\x7b image \x7d\x7d \x7b% if CICD_TOKEN %\x7d\x7b% for item in items %\x7d")]).2 ∧
    "CICD_TOKEN" ∈ (extractVariables [("k8s/x.yaml.j2",
      "\x7b\x7b image \x7d\x7d \x7b% if CICD_TOKEN %\x7d\x7b% for item in items %\x7d")]).2 ∧
    "CICD_TOKEN" ∉ (extractVariables [("k8s/x.yaml.j2",
      "\x7b\x7b image \x7d\x7d \x7b% if CICD_TOKEN %\x7d\x7b% for item in items %\x7d")]).1 ∧
    "item" ∉ (extractVariables [("k8s/x.yaml.j2",
      "\x7b\x7b image \x7d\x7d \x7b% if CICD_TOKEN %\x7d\x7b% for item in items %\x7d")]).1 ∧
    "item" ∉ (extractVariables [("k8s/x.yaml.j2",
      "\x7b\x7b image \x7d\x7d \x7b% if CICD_TOKEN %\x7d\x7b% for item in items %\x7d")]).2 := by
  have h1 := extract_variables_classification [("k8s/x.yaml.j2",
    "\x7b\x7b image \x7d\x7d \x7b% if CICD_TOKEN %\x7d\x7b% for item in items %\x7d")] "image"
  have h2 := extract_variables_classification [("k8s/x.yaml.j2",
    "\x7b\x7b image \x7d\x7d \x7b% if CICD_TOKEN %\x7d\x7b% for item in items %\x7d")] "CICD_TOKEN"
  have h3 := extract_variables_classification [("k8s/x.yaml.j2",
    "\x7b\x7b image \x7d\x7d \x7b% if CICD_TOKEN %\x7d\x7b% for item in items %\x7d")] "item"
  have g1 := h1.1 (by decide) (by decide)
  have g2 := h2.1 (by decide) (by decide)
  have g3 := h3.2.1 (by decide)
  exact ⟨(g1.2 (by decide)).1, (g1.2 (by decide)).2,
    (g2.1 (by decide)).1, (g2.1 (by decide)).2, g3.1, g3.2⟩

section KeyedUpsertLemmas

variable {α κ π : Type} [DecidableEq κ]
variable {keyOf : α → κ} {payloadOf : α → π} {setPayload : π → α → α}
variable {mkEntry : κ → π → α}

theorem updateFirst_of_not_any {p : α → Bool} {f : α → α} :
    ∀ l : List α, l.any p = false → updateFirst p f l = l := by
  intro l
  induction l with
  | nil => intro _; rfl
  | cons x xs ih =>
    intro h
    rw [List.any_cons, Bool.or_eq_false_iff] at h
    unfold updateFirst
    rw [if_neg (by simp [h.1]), ih h.2]

theorem length_updateFirst {p : α → Bool} {f : α → α} :
    ∀ l : List α, (updateFirst p f l).length = l.length := by
  intro l
  induction l with
  | nil => rfl
  | cons x xs ih =>
    unfold updateFirst
    by_cases h : p x = true
    · rw [if_pos h]; rfl
    · rw [if_neg h]
      simp only [List.length_cons, ih]

theorem any_updateFirst {p p' : α → Bool} {f : α → α} (hf : ∀ a, p' (f a) = p' a) :
    ∀ l : List α, (updateFirst p f l).any p' = l.any p' := by
  intro l
  induction l with
  | nil => rfl
  | cons x xs ih =>
    unfold updateFirst
    by_cases h : p x = true
    · rw [if_pos h, List.any_cons, List.any_cons, hf]
    · rw [if_neg h, List.any_cons, List.any_cons, ih]

theorem countP_updateFirst {p p' : α → Bool} {f : α → α} (hf : ∀ a, p' (f a) = p' a) :
    ∀ l : List α, (updateFirst p f l).countP p' = l.countP p' := by
  intro l
  induction l with
  | nil => rfl
  | cons x xs ih =>
    unfold updateFirst
    by_cases h : p x = true
    · rw [if_pos h, List.countP_cons, List.countP_cons, hf]
    · rw [if_neg h, List.countP_cons, List.countP_cons, ih]

theorem find?_updateFirst_disj {p p' : α → Bool} {f : α → α}
    (hdisj : ∀ a, p a = true → p' a = false) (hf : ∀ a, p' (f a) = p' a) :
    ∀ l : List α, (updateFirst p f l).find? p' = l.find? p' := by
  intro l
  induction l with
  | nil => rfl
  | cons x xs ih =>
    unfold updateFirst
    by_cases h : p x = true
    · rw [if_pos h]
      rw [List.find?_cons, List.find?_cons, hf, hdisj x h]
    · rw [if_neg h, List.find?_cons, List.find?_cons]
      cases hx : p' x
      · exact ih
      · rfl

theorem find?_updateFirst_self {p : α → Bool} {f : α → α} (hf : ∀ a, p (f a) = p a) :
    ∀ (l : List α) (a : α), l.find? p = some a →
      (updateFirst p f l).find? p = some (f a) := by
  intro l
  induction l with
  | nil => intro a h; simp at h
  | cons x xs ih =>
    intro a h
    unfold updateFirst
    by_cases hx : p x = true
    · rw [List.find?_cons, hx] at h
      injection h with h
      subst h
      rw [if_pos hx, List.find?_cons, hf, hx]
    · rw [List.find?_cons] at h
      rw [Bool.not_eq_true] at hx
      rw [hx] at h
      rw [if_neg (by simp [hx]), List.find?_cons, hx]
      exact ih a h

theorem updateFirst_fix {p : α → Bool} {f : α → α} :
    ∀ l : List α, (∀ a, l.find? p = some a → f a = a) → updateFirst p f l = l := by
  intro l
  induction l with
  | nil => intro _; rfl
  | cons x xs ih =>
    intro h
    unfold updateFirst
    by_cases hx : p x = true
    · rw [if_pos hx, h x (by rw [List.find?_cons, hx])]
    · rw [if_neg hx]
      rw [Bool.not_eq_true] at hx
      rw [ih]
      intro a ha
      exact h a (by rw [List.find?_cons, hx]; exact ha)

theorem updateFirst_comp {p : α → Bool} {f g : α → α} (hg : ∀ a, p (g a) = p a) :
    ∀ l : List α, updateFirst p f (updateFirst p g l) =
      updateFirst p (fun a => f (g a)) l := by
  intro l
  induction l with
  | nil => rfl
  | cons x xs ih =>
    by_cases hx : p x = true
    · show updateFirst p f (if p x then g x :: xs else _) = _
      rw [if_pos hx]
      show (if p (g x) then f (g x) :: xs else _) = _
      rw [if_pos (by rw [hg, hx]), show updateFirst p (fun a => f (g a)) (x :: xs) =
        if p x then f (g x) :: xs else x :: updateFirst p (fun a => f (g a)) xs from rfl,
        if_pos hx]
    · show updateFirst p f (if p x then g x :: xs else x :: updateFirst p g xs) = _
      rw [if_neg hx]
      show (if p x then f x :: updateFirst p g xs
        else x :: updateFirst p f (updateFirst p g xs)) = _
      rw [if_neg hx, ih,
        show updateFirst p (fun a => f (g a)) (x :: xs) =
          if p x then f (g x) :: xs else x :: updateFirst p (fun a => f (g a)) xs from rfl,
        if_neg hx]

theorem updateFirst_comm {p q : α → Bool} {f g : α → α}
    (hdisj : ∀ a, p a = true → q a = false)
    (hqf : ∀ a, q (f a) = q a) (hpg : ∀ a, p (g a) = p a) :
    ∀ l : List α, updateFirst p f (updateFirst q g l) =
      updateFirst q g (updateFirst p f l) := by
  intro l
  induction l with
  | nil => rfl
  | cons x xs ih =>
    by_cases hp : p x = true
    · have hq : q x = false := hdisj x hp
      show updateFirst p f (if q x then _ else x :: updateFirst q g xs) =
        updateFirst q g (if p x then f x :: xs else _)
      rw [if_neg (by simp [hq]), if_pos hp]
      show (if p x then f x :: updateFirst q g xs else _) =
        if q (f x) then g (f x) :: xs else f x :: updateFirst q g xs
      rw [if_pos hp, if_neg (by simp [hqf, hq])]
    · by_cases hq : q x = true
      · show updateFirst p f (if q x then g x :: xs else _) =
          updateFirst q g (if p x then _ else x :: updateFirst p f xs)
        rw [if_pos hq, if_neg hp]
        show (if p (g x) then _ else g x :: updateFirst p f xs) =
          if q x then g x :: updateFirst p f xs else _
        rw [if_neg (by rw [hpg]; exact hp), if_pos hq]
      · show updateFirst p f (if q x then _ else x :: updateFirst q g xs) =
          updateFirst q g (if p x then _ else x :: updateFirst p f xs)
        rw [if_neg hq, if_neg hp]
        show (if p x then _ else x :: updateFirst p f (updateFirst q g xs)) =
          if q x then _ else x :: updateFirst q g (updateFirst p f xs)
        rw [if_neg hq, if_neg hp, ih]

theorem updateFirst_append_not_last {p : α → Bool} {f : α → α} {b : α}
    (hb : p b = false) :
    ∀ l : List α, updateFirst p f (l ++ [b]) = updateFirst p f l ++ [b] := by
  intro l
  induction l with
  | nil =>
    show (if p b then _ else b :: updateFirst p f []) = [] ++ [b]
    rw [if_neg (by simp [hb])]
    rfl
  | cons x xs ih =>
    show (if p x then f x :: (xs ++ [b]) else x :: updateFirst p f (xs ++ [b])) = _
    by_cases hx : p x = true
    · rw [if_pos hx]
      show _ = (if p x then f x :: xs else _) ++ [b]
      rw [if_pos hx]
      rfl
    · rw [if_neg hx, ih]
      show _ = (if p x then _ else x :: updateFirst p f xs) ++ [b]
      rw [if_neg hx]
      rfl

theorem find?_append_of_none {p : α → Bool} {l₂ : List α} :
    ∀ l : List α, l.find? p = none → (l ++ l₂).find? p = l₂.find? p := by
  intro l
  induction l with
  | nil => intro _; rfl
  | cons x xs ih =>
    intro h
    rw [List.find?_cons] at h
    cases hx : p x
    · rw [hx] at h
      rw [List.cons_append, List.find?_cons, hx]
      exact ih h
    · rw [hx] at h; simp at h

theorem find?_append_of_some {p : α → Bool} {l₂ : List α} {a : α} :
    ∀ l : List α, l.find? p = some a → (l ++ l₂).find? p = some a := by
  intro l
  induction l with
  | nil => intro h; simp at h
  | cons x xs ih =>
    intro h
    rw [List.find?_cons] at h
    cases hx : p x
    · rw [hx] at h
      rw [List.cons_append, List.find?_cons, hx]
      exact ih h
    · rw [hx] at h
      rw [List.cons_append, List.find?_cons, hx]
      exact h

theorem hitK_setPayload (hkey : ∀ (v : π) (a : α), keyOf (setPayload v a) = keyOf a)
    (k : κ) (v : π) (a : α) : hitK keyOf k (setPayload v a) = hitK keyOf k a := by
  unfold hitK
  rw [hkey]

theorem hitK_mkEntry_self (hmkKey : ∀ (k : κ) (v : π), keyOf (mkEntry k v) = k)
    (k : κ) (v : π) : hitK keyOf k (mkEntry k v) = true := by
  unfold hitK
  rw [hmkKey]
  simp

theorem hitK_mkEntry_ne (hmkKey : ∀ (k : κ) (v : π), keyOf (mkEntry k v) = k)
    {k' k : κ} (hne : ¬ k = k') (v : π) : hitK keyOf k' (mkEntry k v) = false := by
  unfold hitK
  rw [hmkKey]
  simp only [decide_eq_false_iff_not]
  exact hne

theorem any_upsertK_self (hkey : ∀ (v : π) (a : α), keyOf (setPayload v a) = keyOf a)
    (hmkKey : ∀ (k : κ) (v : π), keyOf (mkEntry k v) = k) (k : κ) (v : π) (l : List α) :
    (upsertK keyOf setPayload mkEntry k v l).any (hitK keyOf k) = true := by
  unfold upsertK
  by_cases h : l.any (hitK keyOf k) = true
  · rw [if_pos h, any_updateFirst (fun a => hitK_setPayload hkey k v a)]
    exact h
  · rw [if_neg h, List.any_append]
    simp [hitK_mkEntry_self hmkKey k v]

theorem any_upsertK_ne (hkey : ∀ (v : π) (a : α), keyOf (setPayload v a) = keyOf a)
    (hmkKey : ∀ (k : κ) (v : π), keyOf (mkEntry k v) = k)
    {k' k : κ} (hne : ¬ k = k') (v : π) (l : List α) :
    (upsertK keyOf setPayload mkEntry k v l).any (hitK keyOf k') =
      l.any (hitK keyOf k') := by
  unfold upsertK
  by_cases h : l.any (hitK keyOf k) = true
  · rw [if_pos h, any_updateFirst (fun a => hitK_setPayload hkey k' v a)]
  · rw [if_neg h, List.any_append]
    simp [hitK_mkEntry_ne hmkKey hne v]

theorem payloadAtK_upsertK_self
    (hkey : ∀ (v : π) (a : α), keyOf (setPayload v a) = keyOf a)
    (hpay : ∀ (v : π) (a : α), payloadOf (setPayload v a) = v)
    (hmkKey : ∀ (k : κ) (v : π), keyOf (mkEntry k v) = k)
    (hmkPay : ∀ (k : κ) (v : π), payloadOf (mkEntry k v) = v)
    (k : κ) (v : π) (l : List α) :
    payloadAtK keyOf payloadOf k (upsertK keyOf setPayload mkEntry k v l) = some v := by
  unfold upsertK payloadAtK
  by_cases h : l.any (hitK keyOf k) = true
  · rw [if_pos h]
    rcases List.any_eq_true.mp h with ⟨a0, ha0, hp0⟩
    cases hf : l.find? (hitK keyOf k) with
    | none =>
      rw [List.find?_eq_none] at hf
      exact absurd hp0 (hf a0 ha0)
    | some a =>
      rw [find?_updateFirst_self (fun b => hitK_setPayload hkey k v b) l a hf]
      simp [hpay]
  · rw [if_neg h]
    have hfn : l.find? (hitK keyOf k) = none := by
      rw [List.find?_eq_none]
      intro x hx hpx
      exact h (List.any_eq_true.mpr ⟨x, hx, hpx⟩)
    rw [find?_append_of_none _ hfn]
    simp [List.find?_cons, hitK_mkEntry_self hmkKey k v, hmkPay]

theorem payloadAtK_upsertK_ne
    (hkey : ∀ (v : π) (a : α), keyOf (setPayload v a) = keyOf a)
    (hmkKey : ∀ (k : κ) (v : π), keyOf (mkEntry k v) = k)
    {k' k : κ} (hne : ¬ k = k') (v : π) (l : List α) :
    payloadAtK keyOf payloadOf k' (upsertK keyOf setPayload mkEntry k v l) =
      payloadAtK keyOf payloadOf k' l := by
  unfold upsertK payloadAtK
  by_cases h : l.any (hitK keyOf k) = true
  · rw [if_pos h]
    rw [find?_updateFirst_disj ?_ (fun a => hitK_setPayload hkey k' v a)]
    intro a ha
    unfold hitK at ha ⊢
    rw [decide_eq_true_eq] at ha
    rw [ha]
    simp only [decide_eq_false_iff_not]
    exact hne
  · rw [if_neg h]
    cases hf : l.find? (hitK keyOf k') with
    | none =>
      rw [find?_append_of_none _ hf]
      simp [List.find?_cons, hitK_mkEntry_ne hmkKey hne v]
    | some a =>
      rw [find?_append_of_some _ hf]

theorem countP_upsertK_self
    (hkey : ∀ (v : π) (a : α), keyOf (setPayload v a) = keyOf a)
    (hmkKey : ∀ (k : κ) (v : π), keyOf (mkEntry k v) = k)
    (k : κ) (v : π) {l : List α} (hle : l.countP (hitK keyOf k) ≤ 1) :
    (upsertK keyOf setPayload mkEntry k v l).countP (hitK keyOf k) = 1 := by
  unfold upsertK
  by_cases h : l.any (hitK keyOf k) = true
  · rw [if_pos h, countP_updateFirst (fun a => hitK_setPayload hkey k v a)]
    rcases List.any_eq_true.mp h with ⟨a0, ha0, hp0⟩
    have hpos : 0 < l.countP (hitK keyOf k) := List.countP_pos_iff.mpr ⟨a0, ha0, hp0⟩
    omega
  · rw [if_neg h, List.countP_append]
    have h0 : l.countP (hitK keyOf k) = 0 := by
      rw [List.countP_eq_zero]
      intro a ha hpa
      exact h (List.any_eq_true.mpr ⟨a, ha, hpa⟩)
    rw [h0]
    simp [List.countP_cons, hitK_mkEntry_self hmkKey k v]

theorem length_upsertK_of_any {k : κ} {v : π} {l : List α}
    (h : l.any (hitK keyOf k) = true) :
    (upsertK keyOf setPayload mkEntry k v l).length = l.length := by
  unfold upsertK
  rw [if_pos h, length_updateFirst]

theorem upsertK_of_not_any {k : κ} {v : π} {l : List α}
    (h : ¬ l.any (hitK keyOf k) = true) :
    upsertK keyOf setPayload mkEntry k v l = l ++ [mkEntry k v] := by
  unfold upsertK
  rw [if_neg h]

theorem upsertK_of_any {k : κ} {v : π} {l : List α}
    (h : l.any (hitK keyOf k) = true) :
    upsertK keyOf setPayload mkEntry k v l =
      updateFirst (hitK keyOf k) (setPayload v) l := by
  unfold upsertK
  rw [if_pos h]

theorem any_applyUpserts_of_any
    (hkey : ∀ (v : π) (a : α), keyOf (setPayload v a) = keyOf a)
    (hmkKey : ∀ (k : κ) (v : π), keyOf (mkEntry k v) = k) {k' : κ} :
    ∀ (es : List (κ × π)) (l : List α), l.any (hitK keyOf k') = true →
      (applyUpserts keyOf setPayload mkEntry es l).any (hitK keyOf k') = true := by
  intro es
  induction es with
  | nil => intro l h; exact h
  | cons e rest ih =>
    intro l h
    refine ih (upsertK keyOf setPayload mkEntry e.1 e.2 l) ?_
    by_cases he : e.1 = k'
    · rw [← he]
      exact any_upsertK_self hkey hmkKey e.1 e.2 l
    · rw [any_upsertK_ne hkey hmkKey he e.2 l]
      exact h

theorem payloadAtK_applyUpserts_not_mem
    (hkey : ∀ (v : π) (a : α), keyOf (setPayload v a) = keyOf a)
    (hmkKey : ∀ (k : κ) (v : π), keyOf (mkEntry k v) = k) {k : κ} :
    ∀ (es : List (κ × π)) (l : List α), k ∉ es.map Prod.fst →
      payloadAtK keyOf payloadOf k (applyUpserts keyOf setPayload mkEntry es l) =
        payloadAtK keyOf payloadOf k l := by
  intro es
  induction es with
  | nil => intro l _; rfl
  | cons e rest ih =>
    intro l h
    rw [List.map_cons] at h
    have h1 : ¬ e.1 = k := fun he => h (by rw [he]; exact List.mem_cons_self _ _)
    have h2 : k ∉ rest.map Prod.fst := fun hm => h (List.mem_cons_of_mem _ hm)
    exact (ih (upsertK keyOf setPayload mkEntry e.1 e.2 l) h2).trans
      (payloadAtK_upsertK_ne hkey hmkKey h1 e.2 l)

theorem applyUpserts_updateFirst_of_mem
    (hkey : ∀ (v : π) (a : α), keyOf (setPayload v a) = keyOf a)
    (hcomp : ∀ (v w : π) (a : α), setPayload v (setPayload w a) = setPayload v a)
    (hmkKey : ∀ (k : κ) (v : π), keyOf (mkEntry k v) = k) {k : κ} :
    ∀ (es : List (κ × π)) (l : List α) (v : π), k ∈ es.map Prod.fst →
      applyUpserts keyOf setPayload mkEntry es
          (updateFirst (hitK keyOf k) (setPayload v) l) =
        applyUpserts keyOf setPayload mkEntry es l := by
  intro es
  induction es with
  | nil => intro l v h; simp at h
  | cons e rest ih =>
    intro l v h
    by_cases he : e.1 = k
    · subst he
      have hstep : upsertK keyOf setPayload mkEntry e.1 e.2
          (updateFirst (hitK keyOf e.1) (setPayload v) l) =
          upsertK keyOf setPayload mkEntry e.1 e.2 l := by
        unfold upsertK
        rw [any_updateFirst (fun a => hitK_setPayload hkey e.1 v a)]
        by_cases ha : l.any (hitK keyOf e.1) = true
        · rw [if_pos ha, if_pos ha,
            updateFirst_comp (fun a => hitK_setPayload hkey e.1 v a)]
          congr 1
          funext a
          exact hcomp e.2 v a
        · rw [if_neg ha, if_neg ha,
            updateFirst_of_not_any l (Bool.not_eq_true _ ▸ ha)]
      show applyUpserts keyOf setPayload mkEntry rest
          (upsertK keyOf setPayload mkEntry e.1 e.2
            (updateFirst (hitK keyOf e.1) (setPayload v) l)) = _
      rw [hstep]
      rfl
    · have hmem : k ∈ rest.map Prod.fst := by
        rw [List.map_cons] at h
        rcases List.mem_cons.mp h with h1 | h1
        · exact absurd h1.symm he
        · exact h1
      have hcomm : upsertK keyOf setPayload mkEntry e.1 e.2
          (updateFirst (hitK keyOf k) (setPayload v) l) =
          updateFirst (hitK keyOf k) (setPayload v)
            (upsertK keyOf setPayload mkEntry e.1 e.2 l) := by
        unfold upsertK
        rw [any_updateFirst (fun a => hitK_setPayload hkey e.1 v a)]
        by_cases ha : l.any (hitK keyOf e.1) = true
        · rw [if_pos ha, if_pos ha]
          refine updateFirst_comm ?_ (fun a => hitK_setPayload hkey k e.2 a)
            (fun a => hitK_setPayload hkey e.1 v a) l
          intro a haa
          unfold hitK at haa ⊢
          rw [decide_eq_true_eq] at haa
          rw [haa]
          simp only [decide_eq_false_iff_not]
          exact he
        · rw [if_neg ha, if_neg ha]
          exact (updateFirst_append_not_last
            (hitK_mkEntry_ne hmkKey he e.2) l).symm
      exact (congrArg (applyUpserts keyOf setPayload mkEntry rest) hcomm).trans
        (ih (upsertK keyOf setPayload mkEntry e.1 e.2 l) v hmem)

theorem applyUpserts_idem
    (hkey : ∀ (v : π) (a : α), keyOf (setPayload v a) = keyOf a)
    (hpay : ∀ (v : π) (a : α), payloadOf (setPayload v a) = v)
    (hself : ∀ a : α, setPayload (payloadOf a) a = a)
    (hcomp : ∀ (v w : π) (a : α), setPayload v (setPayload w a) = setPayload v a)
    (hmkKey : ∀ (k : κ) (v : π), keyOf (mkEntry k v) = k)
    (hmkPay : ∀ (k : κ) (v : π), payloadOf (mkEntry k v) = v) :
    ∀ (es : List (κ × π)) (l : List α),
      applyUpserts keyOf setPayload mkEntry es
          (applyUpserts keyOf setPayload mkEntry es l) =
        applyUpserts keyOf setPayload mkEntry es l := by
  intro es
  induction es with
  | nil => intro l; rfl
  | cons e rest ih =>
    intro l
    have hat : (upsertK keyOf setPayload mkEntry e.1 e.2 l).any (hitK keyOf e.1) = true :=
      any_upsertK_self hkey hmkKey e.1 e.2 l
    have hau : (applyUpserts keyOf setPayload mkEntry rest
        (upsertK keyOf setPayload mkEntry e.1 e.2 l)).any (hitK keyOf e.1) = true :=
      any_applyUpserts_of_any hkey hmkKey rest _ hat
    have hstep : upsertK keyOf setPayload mkEntry e.1 e.2
        (applyUpserts keyOf setPayload mkEntry rest
          (upsertK keyOf setPayload mkEntry e.1 e.2 l)) =
        updateFirst (hitK keyOf e.1) (setPayload e.2)
          (applyUpserts keyOf setPayload mkEntry rest
            (upsertK keyOf setPayload mkEntry e.1 e.2 l)) :=
      upsertK_of_any hau
    show applyUpserts keyOf setPayload mkEntry rest
        (upsertK keyOf setPayload mkEntry e.1 e.2
          (applyUpserts keyOf setPayload mkEntry rest
            (upsertK keyOf setPayload mkEntry e.1 e.2 l))) = _
    rw [hstep]
    by_cases hm : e.1 ∈ rest.map Prod.fst
    · rw [applyUpserts_updateFirst_of_mem hkey hcomp hmkKey rest _ e.2 hm]
      exact ih _
    · have hpv : payloadAtK keyOf payloadOf e.1
          (applyUpserts keyOf setPayload mkEntry rest
            (upsertK keyOf setPayload mkEntry e.1 e.2 l)) = some e.2 := by
        rw [payloadAtK_applyUpserts_not_mem hkey hmkKey rest _ hm,
          payloadAtK_upsertK_self hkey hpay hmkKey hmkPay]
      have hfx : updateFirst (hitK keyOf e.1) (setPayload e.2)
          (applyUpserts keyOf setPayload mkEntry rest
            (upsertK keyOf setPayload mkEntry e.1 e.2 l)) =
          applyUpserts keyOf setPayload mkEntry rest
            (upsertK keyOf setPayload mkEntry e.1 e.2 l) := by
        apply updateFirst_fix
        intro a ha
        unfold payloadAtK at hpv
        rw [ha] at hpv
        simp only [Option.map_some', Option.some.injEq] at hpv
        rw [← hpv, hself]
      rw [hfx]
      exact ih _

end KeyedUpsertLemmas

/-! ### The file and variable instances of the keyed upsert -/

theorem fileKeyOf_set (v : String) (a : RepoFile) :
    fileKeyOf (fileSetPayload v a) = fileKeyOf a := rfl

theorem filePayloadOf_set (v : String) (a : RepoFile) :
    filePayloadOf (fileSetPayload v a) = v := rfl

theorem fileSetPayload_self (a : RepoFile) :
    fileSetPayload (filePayloadOf a) a = a := rfl

theorem fileSetPayload_comp (v w : String) (a : RepoFile) :
    fileSetPayload v (fileSetPayload w a) = fileSetPayload v a := rfl

theorem fileKeyOf_mk (k : String × String) (v : String) :
    fileKeyOf (mkRepoFile k v) = k := rfl

theorem filePayloadOf_mk (k : String × String) (v : String) :
    filePayloadOf (mkRepoFile k v) = v := rfl

theorem varKeyOf_set (p : String × Bool × Bool) (a : CicdVariable) :
    varKeyOf (varSetPayload p a) = varKeyOf a := rfl

theorem varPayloadOf_set (p : String × Bool × Bool) (a : CicdVariable) :
    varPayloadOf (varSetPayload p a) = p := rfl

theorem varSetPayload_self (a : CicdVariable) :
    varSetPayload (varPayloadOf a) a = a := rfl

theorem varSetPayload_comp (p q : String × Bool × Bool) (a : CicdVariable) :
    varSetPayload p (varSetPayload q a) = varSetPayload p a := rfl

theorem varKeyOf_mk (k : String × String) (p : String × Bool × Bool) :
    varKeyOf (mkCicdVariable k p) = k := rfl

theorem varPayloadOf_mk (k : String × String) (p : String × Bool × Bool) :
    varPayloadOf (mkCicdVariable k p) = p := rfl

theorem find?_eq_some_pred {α : Type} {p : α → Bool} :
    ∀ {l : List α} {a : α}, l.find? p = some a → p a = true := by
  intro l
  induction l with
  | nil => intro a h; simp at h
  | cons x xs ih =>
    intro a h
    rw [List.find?_cons] at h
    cases hx : p x
    · rw [hx] at h; exact ih h
    · rw [hx] at h; injection h with h; rw [← h]; exact hx

/-! ### State-level lemmas -/

theorem projectExists_modifyProjectData (q path : String)
    (ff : List RepoFile → List RepoFile) (fv : List CicdVariable → List CicdVariable)
    (s : RemoteState) :
    projectExists q (modifyProjectData path ff fv s) = projectExists q s := by
  unfold projectExists modifyProjectData
  rw [List.any_map]
  congr 1
  funext p
  by_cases h : p.path = path
  · simp [Function.comp, h]
  · simp [Function.comp, h]

theorem projFiles_modifyProjectData {path : String} {s : RemoteState}
    (hp : projectExists path s = true)
    (ff : List RepoFile → List RepoFile) (fv : List CicdVariable → List CicdVariable) :
    projFiles path (modifyProjectData path ff fv s) = ff (projFiles path s) := by
  unfold projectExists at hp
  unfold projFiles modifyProjectData
  rw [List.find?_map]
  have hcong : ((fun p : Project => decide (p.path = path)) ∘ (fun p : Project =>
      if p.path = path then { p with files := ff p.files, projVars := fv p.projVars }
      else p)) = fun p : Project => decide (p.path = path) := by
    funext p
    by_cases h : p.path = path
    · simp [Function.comp, h]
    · simp [Function.comp, h]
  rw [hcong]
  cases hf : s.projects.find? (fun p => decide (p.path = path)) with
  | none =>
    rw [List.find?_eq_none] at hf
    rcases List.any_eq_true.mp hp with ⟨p0, hp0, hq0⟩
    exact absurd hq0 (hf p0 hp0)
  | some pr =>
    have hpr : pr.path = path := by
      have h1 := find?_eq_some_pred hf
      simpa using h1
    simp [hpr]

theorem projVariables_modifyProjectData {path : String} {s : RemoteState}
    (hp : projectExists path s = true)
    (ff : List RepoFile → List RepoFile) (fv : List CicdVariable → List CicdVariable) :
    projVariables path (modifyProjectData path ff fv s) = fv (projVariables path s) := by
  unfold projectExists at hp
  unfold projVariables modifyProjectData
  rw [List.find?_map]
  have hcong : ((fun p : Project => decide (p.path = path)) ∘ (fun p : Project =>
      if p.path = path then { p with files := ff p.files, projVars := fv p.projVars }
      else p)) = fun p : Project => decide (p.path = path) := by
    funext p
    by_cases h : p.path = path
    · simp [Function.comp, h]
    · simp [Function.comp, h]
  rw [hcong]
  cases hf : s.projects.find? (fun p => decide (p.path = path)) with
  | none =>
    rw [List.find?_eq_none] at hf
    rcases List.any_eq_true.mp hp with ⟨p0, hp0, hq0⟩
    exact absurd hq0 (hf p0 hp0)
  | some pr =>
    have hpr : pr.path = path := by
      have h1 := find?_eq_some_pred hf
      simpa using h1
    simp [hpr]

theorem modifyProjectData_comp (path : String)
    (ff1 ff2 : List RepoFile → List RepoFile)
    (fv1 fv2 : List CicdVariable → List CicdVariable) (s : RemoteState) :
    modifyProjectData path ff2 fv2 (modifyProjectData path ff1 fv1 s) =
      modifyProjectData path (fun l => ff2 (ff1 l)) (fun l => fv2 (fv1 l)) s := by
  unfold modifyProjectData
  simp only [List.map_map]
  congr 1
  apply List.map_congr_left
  intro p _
  by_cases h : p.path = path
  · simp [Function.comp, h]
  · simp [Function.comp, h]

theorem modifyProjectData_id (path : String)
    (ff : List RepoFile → List RepoFile) (fv : List CicdVariable → List CicdVariable)
    (s : RemoteState) (hff : ∀ l, ff l = l) (hfv : ∀ l, fv l = l) :
    modifyProjectData path ff fv s = s := by
  unfold modifyProjectData
  have h2 : (fun p : Project =>
      if p.path = path then { p with files := ff p.files, projVars := fv p.projVars }
      else p) = id := by
    funext p
    by_cases h : p.path = path
    · rw [if_pos h, hff, hfv]
      rfl
    · rw [if_neg h]
      rfl
  rw [h2, List.map_id]

theorem projectExists_addProject (p : String) (s : RemoteState) :
    projectExists p (addProject p s) = true := by
  unfold projectExists addProject
  rw [List.any_append]
  simp

theorem projectExists_create_project (p : String) (s : RemoteState) :
    projectExists p (create_project_if_not_exists p s) = true := by
  unfold create_project_if_not_exists
  by_cases h : projectExists p s = true
  · rw [if_pos h]; exact h
  · rw [if_neg h]
    split
    · exact projectExists_addProject p _
    · exact projectExists_addProject p _

theorem create_project_of_exists {p : String} {s : RemoteState}
    (h : projectExists p s = true) : create_project_if_not_exists p s = s := by
  unfold create_project_if_not_exists
  rw [if_pos h]

theorem create_or_update_file_of_exists {project_id : String} {s : RemoteState}
    (hp : projectExists project_id s = true) (fp c m b : String) :
    create_or_update_file project_id fp c m b s =
      some (modifyProjectData project_id (upsertFile fp b c) id s) := by
  unfold create_or_update_file
  rw [if_pos hp]

theorem create_or_update_variable_of_exists {project_id : String} {s : RemoteState}
    (hp : projectExists project_id s = true) (k v : String) (pr ma : Bool) (sc : String) :
    create_or_update_variable project_id k v pr ma sc s =
      some (modifyProjectData project_id id (upsertVariable k v pr ma sc) s) := by
  unfold create_or_update_variable
  rw [if_pos hp]

theorem foldFiles_eq (pr b : String) :
    ∀ (fs : List (String × String)) (s : RemoteState), projectExists pr s = true →
      List.foldlM (fun st pc => create_or_update_file pr pc.1 pc.2 "" b st) s fs =
        some (modifyProjectData pr
          (applyUpserts fileKeyOf fileSetPayload mkRepoFile (fileEntries b fs)) id s) := by
  intro fs
  induction fs with
  | nil =>
    intro s hp
    rw [modifyProjectData_id pr
      (applyUpserts fileKeyOf fileSetPayload mkRepoFile (fileEntries b [])) id s
      (fun l => rfl) (fun l => rfl)]
    rfl
  | cons pc fs ih =>
    intro s hp
    rw [List.foldlM_cons, create_or_update_file_of_exists hp pc.1 pc.2 "" b]
    show List.foldlM (fun st pc => create_or_update_file pr pc.1 pc.2 "" b st)
        (modifyProjectData pr (upsertFile pc.1 b pc.2) id s) fs = _
    rw [ih _ (by rw [projectExists_modifyProjectData]; exact hp), modifyProjectData_comp]
    rfl

theorem foldVars_eq (pr : String) :
    ∀ (vs : List DesiredVariable) (s : RemoteState), projectExists pr s = true →
      List.foldlM (fun st v => create_or_update_variable pr v.key v.value v.prot
          v.masked v.environment_scope st) s vs =
        some (modifyProjectData pr id
          (applyUpserts varKeyOf varSetPayload mkCicdVariable (varEntries vs)) s) := by
  intro vs
  induction vs with
  | nil =>
    intro s hp
    rw [modifyProjectData_id pr id
      (applyUpserts varKeyOf varSetPayload mkCicdVariable (varEntries [])) s
      (fun l => rfl) (fun l => rfl)]
    rfl
  | cons v vs ih =>
    intro s hp
    rw [List.foldlM_cons,
      create_or_update_variable_of_exists hp v.key v.value v.prot v.masked v.environment_scope]
    show List.foldlM (fun st v => create_or_update_variable pr v.key v.value v.prot
        v.masked v.environment_scope st)
        (modifyProjectData pr id
          (upsertVariable v.key v.value v.prot v.masked v.environment_scope) s) vs = _
    rw [ih _ (by rw [projectExists_modifyProjectData]; exact hp), modifyProjectData_comp]
    rfl

theorem applyDesired_eq (d : DesiredResourceState) (s : RemoteState) :
    applyDesired d s = some (modifyProjectData d.project_path
      (applyUpserts fileKeyOf fileSetPayload mkRepoFile (fileEntries d.branch d.files))
      (applyUpserts varKeyOf varSetPayload mkCicdVariable (varEntries d.dvars))
      (create_project_if_not_exists d.project_path s)) := by
  unfold applyDesired
  rw [foldFiles_eq d.project_path d.branch d.files _
    (projectExists_create_project d.project_path s)]
  show List.foldlM (fun st v => create_or_update_variable d.project_path v.key v.value
      v.prot v.masked v.environment_scope st)
      (modifyProjectData d.project_path
        (applyUpserts fileKeyOf fileSetPayload mkRepoFile (fileEntries d.branch d.files)) id
        (create_project_if_not_exists d.project_path s)) d.dvars = _
  rw [foldVars_eq d.project_path d.dvars _
    (by rw [projectExists_modifyProjectData]
        exact projectExists_create_project d.project_path s)]
  rw [modifyProjectData_comp]
  rfl

/-! ### The reconciliation claims -/

/-- C1: reconciliation idempotence: applying the same `DesiredResourceState`
twice in sequence produces the same remote end-state as applying it once —
the second application creates no group, project, file or variable and
changes no stored value: the state after the second application is *equal* to
the state after the first. -/
theorem reconciliation_idempotent (d : DesiredResourceState) (s s1 : RemoteState)
    (h : applyDesired d s = some s1) : applyDesired d s1 = some s1 := by
  rw [applyDesired_eq] at h
  have hs1 := (Option.some.inj h).symm
  subst hs1
  rw [applyDesired_eq]
  have hpe : projectExists d.project_path
      (modifyProjectData d.project_path
        (applyUpserts fileKeyOf fileSetPayload mkRepoFile (fileEntries d.branch d.files))
        (applyUpserts varKeyOf varSetPayload mkCicdVariable (varEntries d.dvars))
        (create_project_if_not_exists d.project_path s)) = true := by
    rw [projectExists_modifyProjectData]
    exact projectExists_create_project d.project_path s
  rw [create_project_of_exists hpe, modifyProjectData_comp]
  have hF : (fun l => applyUpserts fileKeyOf fileSetPayload mkRepoFile
      (fileEntries d.branch d.files)
      (applyUpserts fileKeyOf fileSetPayload mkRepoFile (fileEntries d.branch d.files) l)) =
      applyUpserts fileKeyOf fileSetPayload mkRepoFile (fileEntries d.branch d.files) :=
    funext fun l => applyUpserts_idem fileKeyOf_set filePayloadOf_set fileSetPayload_self
      fileSetPayload_comp fileKeyOf_mk filePayloadOf_mk _ l
  have hV : (fun l => applyUpserts varKeyOf varSetPayload mkCicdVariable
      (varEntries d.dvars)
      (applyUpserts varKeyOf varSetPayload mkCicdVariable (varEntries d.dvars) l)) =
      applyUpserts varKeyOf varSetPayload mkCicdVariable (varEntries d.dvars) :=
    funext fun l => applyUpserts_idem varKeyOf_set varPayloadOf_set varSetPayload_self
      varSetPayload_comp varKeyOf_mk varPayloadOf_mk _ l
  rw [hF, hV]

/-- Witness for C1 on a concrete run against an empty remote: the first
application creates the group, the project, one file and one variable; the
second application is a no-op. -/
theorem reconciliation_idempotent_witness :
    applyDesired ⟨"grp/app", "main", [("ci.yml", "pipeline")],
        [⟨"KUBE_CONTEXT", "ctx-prod", false, false, "prod"⟩]⟩
      ⟨["grp"], [⟨"grp/app", [⟨"ci.yml", "main", "pipeline"⟩],
        [⟨"KUBE_CONTEXT", "ctx-prod", false, false, "prod"⟩]⟩]⟩ =
      some ⟨["grp"], [⟨"grp/app", [⟨"ci.yml", "main", "pipeline"⟩],
        [⟨"KUBE_CONTEXT", "ctx-prod", false, false, "prod"⟩]⟩]⟩ :=
  reconciliation_idempotent
    ⟨"grp/app", "main", [("ci.yml", "pipeline")],
      [⟨"KUBE_CONTEXT", "ctx-prod", false, false, "prod"⟩]⟩
    ⟨[], []⟩
    ⟨["grp"], [⟨"grp/app", [⟨"ci.yml", "main", "pipeline"⟩],
      [⟨"KUBE_CONTEXT", "ctx-prod", false, false, "prod"⟩]⟩]⟩
    (by rfl)

/-- C2: variable reconciliation keys on `(name, environment_scope)`:
`create_or_update_variable` enumerates the existing variables and matches on
the scope-qualified key, so two sequential calls with the same name and
different scopes leave both records persisted with their own values, while
two sequential calls with the same name and scope leave exactly one record
(when the remote held at most one, as it guarantees) holding the latest
value. -/
theorem variable_scope_qualified (project_id k sc1 sc2 v1 v2 : String)
    (p1 m1 p2 m2 : Bool) (s : RemoteState) (hp : projectExists project_id s = true) :
    ∃ s1 s2,
      create_or_update_variable project_id k v1 p1 m1 sc1 s = some s1 ∧
      create_or_update_variable project_id k v2 p2 m2 sc2 s1 = some s2 ∧
      projVariables project_id s2 =
        upsertVariable k v2 p2 m2 sc2
          (upsertVariable k v1 p1 m1 sc1 (projVariables project_id s)) ∧
      (¬ sc1 = sc2 →
        payloadAtK varKeyOf varPayloadOf (k, sc1) (projVariables project_id s2) =
          some (v1, p1, m1) ∧
        payloadAtK varKeyOf varPayloadOf (k, sc2) (projVariables project_id s2) =
          some (v2, p2, m2)) ∧
      (sc1 = sc2 → (projVariables project_id s).countP (hitK varKeyOf (k, sc2)) ≤ 1 →
        (projVariables project_id s2).countP (hitK varKeyOf (k, sc2)) = 1 ∧
        payloadAtK varKeyOf varPayloadOf (k, sc2) (projVariables project_id s2) =
          some (v2, p2, m2)) := by
  have hp1 : projectExists project_id
      (modifyProjectData project_id id (upsertVariable k v1 p1 m1 sc1) s) = true := by
    rw [projectExists_modifyProjectData]
    exact hp
  refine ⟨_, _, create_or_update_variable_of_exists hp k v1 p1 m1 sc1,
    create_or_update_variable_of_exists hp1 k v2 p2 m2 sc2, ?_, ?_, ?_⟩
  · rw [projVariables_modifyProjectData hp1, projVariables_modifyProjectData hp]
  · intro hne
    have hkne : ¬ ((k, sc2) : String × String) = (k, sc1) :=
      fun he => hne (Prod.mk.injEq .. ▸ he).2.symm
    have hkne' : ¬ ((k, sc1) : String × String) = (k, sc2) :=
      fun he => hne (Prod.mk.injEq .. ▸ he).2
    rw [projVariables_modifyProjectData hp1, projVariables_modifyProjectData hp]
    constructor
    · rw [show upsertVariable k v2 p2 m2 sc2
          (upsertVariable k v1 p1 m1 sc1 (projVariables project_id s)) =
          upsertK varKeyOf varSetPayload mkCicdVariable (k, sc2) (v2, p2, m2)
            (upsertK varKeyOf varSetPayload mkCicdVariable (k, sc1) (v1, p1, m1)
              (projVariables project_id s)) from rfl,
        payloadAtK_upsertK_ne varKeyOf_set varKeyOf_mk hkne _ _,
        payloadAtK_upsertK_self varKeyOf_set varPayloadOf_set varKeyOf_mk varPayloadOf_mk]
    · rw [show upsertVariable k v2 p2 m2 sc2
          (upsertVariable k v1 p1 m1 sc1 (projVariables project_id s)) =
          upsertK varKeyOf varSetPayload mkCicdVariable (k, sc2) (v2, p2, m2)
            (upsertK varKeyOf varSetPayload mkCicdVariable (k, sc1) (v1, p1, m1)
              (projVariables project_id s)) from rfl,
        payloadAtK_upsertK_self varKeyOf_set varPayloadOf_set varKeyOf_mk varPayloadOf_mk]
  · intro heq hle
    subst heq
    rw [projVariables_modifyProjectData hp1, projVariables_modifyProjectData hp]
    have h1 : (upsertVariable k v1 p1 m1 sc1 (projVariables project_id s)).countP
        (hitK varKeyOf (k, sc1)) = 1 :=
      countP_upsertK_self varKeyOf_set varKeyOf_mk (k, sc1) (v1, p1, m1) hle
    constructor
    · exact countP_upsertK_self varKeyOf_set varKeyOf_mk (k, sc1) (v2, p2, m2) (by omega)
    · exact payloadAtK_upsertK_self varKeyOf_set varPayloadOf_set varKeyOf_mk
        varPayloadOf_mk (k, sc1) (v2, p2, m2) _

/-- Witness for C2, the spec's example scenario: reconciling
`("DB_URL", scope "prod")` while `("DB_URL", scope "*")` exists, then
updating the `"*"`-scoped record — both records persist with their own
values. -/
theorem variable_scope_qualified_witness :
    payloadAtK varKeyOf varPayloadOf ("DB_URL", "prod")
      (projVariables "g/p" ⟨["g"], [⟨"g/p", [],
        [⟨"DB_URL", "sv", false, false, "*"⟩,
         ⟨"DB_URL", "pv", false, false, "prod"⟩]⟩]⟩) = some ("pv", false, false) ∧
    payloadAtK varKeyOf varPayloadOf ("DB_URL", "*")
      (projVariables "g/p" ⟨["g"], [⟨"g/p", [],
        [⟨"DB_URL", "sv", false, false, "*"⟩,
         ⟨"DB_URL", "pv", false, false, "prod"⟩]⟩]⟩) = some ("sv", false, false) := by
  obtain ⟨s1, s2, h1, h2, _, h4, _⟩ :=
    variable_scope_qualified "g/p" "DB_URL" "prod" "*" "pv" "sv" false false false false
      ⟨["g"], [⟨"g/p", [], [⟨"DB_URL", "w", false, false, "*"⟩]⟩]⟩ (by rfl)
  have e1 : s1 = ⟨["g"], [⟨"g/p", [],
      [⟨"DB_URL", "w", false, false, "*"⟩,
       ⟨"DB_URL", "pv", false, false, "prod"⟩]⟩]⟩ :=
    Option.some.inj (h1.symm.trans (by rfl))
  subst e1
  have e2 : s2 = ⟨["g"], [⟨"g/p", [],
      [⟨"DB_URL", "sv", false, false, "*"⟩,
       ⟨"DB_URL", "pv", false, false, "prod"⟩]⟩]⟩ :=
    Option.some.inj (h2.symm.trans (by rfl))
  subst e2
  exact h4 (by decide)

/-- C4: file reconciliation is get-then-branch, never blind create: the
fetch's three outcomes map to exactly one update commit, exactly one create
commit, or a propagated error with no commit; and on the state, a present
`(file_path, branch)` record is updated in place (same number of records,
content replaced) while an absent one is created as exactly one appended
record. -/
theorem file_get_then_branch (project_id file_path content commit_message branch : String)
    (s : RemoteState) (hp : projectExists project_id s = true) :
    (∀ existing : String,
      create_or_update_file_calls file_path content commit_message branch (.found existing) =
        .ok [.updateCommit branch commit_message content]) ∧
    (create_or_update_file_calls file_path content commit_message branch .notFound =
      .ok [.createCommit branch commit_message file_path content]) ∧
    (create_or_update_file_calls file_path content commit_message branch .fetchFailure =
      .error ()) ∧
    create_or_update_file project_id file_path content commit_message branch s =
      some (modifyProjectData project_id (upsertFile file_path branch content) id s) ∧
    ((projFiles project_id s).any (hitK fileKeyOf (file_path, branch)) = true →
      (projFiles project_id (modifyProjectData project_id
          (upsertFile file_path branch content) id s)).length =
        (projFiles project_id s).length ∧
      payloadAtK fileKeyOf filePayloadOf (file_path, branch)
        (projFiles project_id (modifyProjectData project_id
          (upsertFile file_path branch content) id s)) = some content) ∧
    ((projFiles project_id s).any (hitK fileKeyOf (file_path, branch)) = false →
      projFiles project_id (modifyProjectData project_id
          (upsertFile file_path branch content) id s) =
        projFiles project_id s ++ [⟨file_path, branch, content⟩]) := by
  refine ⟨fun existing => rfl, rfl, rfl,
    create_or_update_file_of_exists hp file_path content commit_message branch, ?_, ?_⟩
  · intro hany
    rw [projFiles_modifyProjectData hp]
    constructor
    · exact length_upsertK_of_any hany
    · exact payloadAtK_upsertK_self fileKeyOf_set filePayloadOf_set fileKeyOf_mk
        filePayloadOf_mk (file_path, branch) content _
  · intro hnone
    rw [projFiles_modifyProjectData hp]
    exact upsertK_of_not_any (by rw [hnone]; exact Bool.false_ne_true)

/-- Witness for C4: updating the existing `ci.yml` on `main` keeps one record
with the new content; creating `deploy.yml` appends exactly one record. -/
theorem file_get_then_branch_witness :
    create_or_update_file_calls "ci.yml" "new" "msg" "main" (.found "old") =
      .ok [.updateCommit "main" "msg" "new"] ∧
    create_or_update_file_calls "ci.yml" "new" "msg" "main" .notFound =
      .ok [.createCommit "main" "msg" "ci.yml" "new"] ∧
    create_or_update_file_calls "ci.yml" "new" "msg" "main" .fetchFailure = .error () ∧
    ((projFiles "g/p" (modifyProjectData "g/p" (upsertFile "ci.yml" "main" "new") id
        ⟨[], [⟨"g/p", [⟨"ci.yml", "main", "old"⟩], []⟩]⟩)).length =
      (projFiles "g/p" ⟨[], [⟨"g/p", [⟨"ci.yml", "main", "old"⟩], []⟩]⟩).length ∧
      payloadAtK fileKeyOf filePayloadOf ("ci.yml", "main")
        (projFiles "g/p" (modifyProjectData "g/p" (upsertFile "ci.yml" "main" "new") id
          ⟨[], [⟨"g/p", [⟨"ci.yml", "main", "old"⟩], []⟩]⟩)) = some "new") ∧
    projFiles "g/p" (modifyProjectData "g/p" (upsertFile "deploy.yml" "main" "d") id
        ⟨[], [⟨"g/p", [⟨"ci.yml", "main", "old"⟩], []⟩]⟩) =
      projFiles "g/p" ⟨[], [⟨"g/p", [⟨"ci.yml", "main", "old"⟩], []⟩]⟩ ++
        [⟨"deploy.yml", "main", "d"⟩] := by
  refine ⟨?_, ?_, ?_, ?_, ?_⟩
  · exact (file_get_then_branch "g/p" "ci.yml" "new" "msg" "main"
      ⟨[], [⟨"g/p", [⟨"ci.yml", "main", "old"⟩], []⟩]⟩ (by rfl)).1 "old"
  · exact (file_get_then_branch "g/p" "ci.yml" "new" "msg" "main"
      ⟨[], [⟨"g/p", [⟨"ci.yml", "main", "old"⟩], []⟩]⟩ (by rfl)).2.1
  · exact (file_get_then_branch "g/p" "ci.yml" "new" "msg" "main"
      ⟨[], [⟨"g/p", [⟨"ci.yml", "main", "old"⟩], []⟩]⟩ (by rfl)).2.2.1
  · exact (file_get_then_branch "g/p" "ci.yml" "new" "msg" "main"
      ⟨[], [⟨"g/p", [⟨"ci.yml", "main", "old"⟩], []⟩]⟩ (by rfl)).2.2.2.2.1 (by decide)
  · exact (file_get_then_branch "g/p" "deploy.yml" "d" "msg" "main"
      ⟨[], [⟨"g/p", [⟨"ci.yml", "main", "old"⟩], []⟩]⟩ (by rfl)).2.2.2.2.2 (by decide)

/-- C5: variable reconciliation is self-healing against creation races: when
the initial scope-qualified lookup found nothing and `variables.create` fails
with a conflict (`409` / already exists), the handler re-enumerates and
updates the matching scope-qualified record instead of propagating; the
conflict is surfaced only when that fallback itself fails (the re-listing
raises or holds no match).  A non-conflict create error propagates
directly. -/
theorem variable_conflict_self_healing (key value : String) (prot masked : Bool)
    (environment_scope : String) (api : VarApiBehavior)
    (l2 l3 : List CicdVariable) (v : CicdVariable)
    (hfirst : firstMatch key environment_scope api = none) :
    (api.createResult = .createError true → api.relistResult = some l2 →
      findVar key environment_scope l2 = some v →
      create_or_update_variable_flow key value prot masked environment_scope api =
        .healedUpdate (varSetPayload (value, prot, masked) v)) ∧
    (api.createResult = .createError true → api.relistResult = some l3 →
      findVar key environment_scope l3 = none →
      create_or_update_variable_flow key value prot masked environment_scope api =
        .raisedCreateError true) ∧
    (api.createResult = .createError true → api.relistResult = none →
      create_or_update_variable_flow key value prot masked environment_scope api =
        .raisedCreateError true) ∧
    (api.createResult = .createError false →
      create_or_update_variable_flow key value prot masked environment_scope api =
        .raisedCreateError false) := by
  refine ⟨?_, ?_, ?_, ?_⟩
  · intro hc hr hf
    unfold create_or_update_variable_flow
    rw [hfirst, hc, hr]
    simp [hf]
  · intro hc hr hf
    unfold create_or_update_variable_flow
    rw [hfirst, hc, hr]
    simp [hf]
  · intro hc hr
    unfold create_or_update_variable_flow
    rw [hfirst, hc, hr]
    rfl
  · intro hc
    unfold create_or_update_variable_flow
    rw [hfirst, hc]
    rfl

/-- Witness for C5: a conflicted creation of `("DB_URL", "*")` heals by
updating the record the re-listing exposes; with a failed re-listing the
conflict is surfaced. -/
theorem variable_conflict_self_healing_witness :
    create_or_update_variable_flow "DB_URL" "new" false true "*"
      ⟨some [], .createError true,
        some [⟨"DB_URL", "old", false, false, "*"⟩]⟩ =
      .healedUpdate ⟨"DB_URL", "new", false, true, "*"⟩ ∧
    create_or_update_variable_flow "DB_URL" "new" false true "*"
      ⟨some [], .createError true, none⟩ = .raisedCreateError true ∧
    create_or_update_variable_flow "DB_URL" "new" false true "*"
      ⟨some [], .createError false, some []⟩ = .raisedCreateError false := by
  refine ⟨?_, ?_, ?_⟩
  · exact (variable_conflict_self_healing "DB_URL" "new" false true "*"
      ⟨some [], .createError true, some [⟨"DB_URL", "old", false, false, "*"⟩]⟩
      [⟨"DB_URL", "old", false, false, "*"⟩] [] ⟨"DB_URL", "old", false, false, "*"⟩
      (by rfl)).1 rfl rfl (by rfl)
  · exact (variable_conflict_self_healing "DB_URL" "new" false true "*"
      ⟨some [], .createError true, none⟩ [] [] ⟨"DB_URL", "old", false, false, "*"⟩
      (by rfl)).2.2.1 rfl rfl
  · exact (variable_conflict_self_healing "DB_URL" "new" false true "*"
      ⟨some [], .createError false, some []⟩ [] [] ⟨"DB_URL", "old", false, false, "*"⟩
      (by rfl)).2.2.2 rfl

end Hidraulik

